import Mathlib

/-!
Distributed sniffer (`sniffer/sniffer.c`): packet pool, time-ordered queue, worker.

A shallow embedding of the packet pool, the priority queue of sniffed packets,
the sink/role state, the host link callback, the tick conversion and the worker of
`sniffer.c`, and theorems about them.

Conventions of the embedding:

* `u_char`, `u_short`, `u_long` are `Nat` with explicit `% 2^8`, `% 2^16`, `% 2^32`
  where the C arithmetic can wrap.
* A `struct sniffed_packet *` is `Option Nat`: `none` is the null pointer and
  `some i` is `&packet_buffers[i]`.
* Calls into the Bluetooth stack, the connection manager and `printf` are recorded
  as a list of `Event`s returned next to the new state.
* `NutGetMillis()` and `_bt_cm_get_nr_reliable_cons()` are inputs of the functions
  that call them; constants of headers outside `sniffer.c` (`BT_L2CAP_CONNECT`,
  `sizeof(struct sniffer_config)`) are parameters.
-/

namespace Snif

/-! ## Data model -/

/-- Constant `#define SNIFFED_PACKETED_BUFFER_SIZE 16` -/
def SNIFFED_PACKETED_BUFFER_SIZE : Nat := 16

/-- Constant `#define MAX_PAYLOAD_SIZE 100` -/
def MAX_PAYLOAD_SIZE : Nat := 100

/-- Constant `#define SNIFFED_PACKET_HEADER_LEN 11` -/
def SNIFFED_PACKET_HEADER_LEN : Nat := 11

/-- Record `struct sniffed_packet`: the queue fields `free`, `key` and the data fields. -/
structure sniffed_packet where
  free : Nat
  key : Nat
  bt_addr : List Nat
  timestamp : Nat
  len : Nat
  data : List Nat
deriving DecidableEq, Repr, Inhabited

/-- The `mode` argument of the mhop send primitives. -/
inductive MhopMode where
  | MHOP_CL_UNICAST
  | MHOP_CL_BROADCAST
deriving DecidableEq, Repr

/-- The `ttl` argument of the mhop send primitives. -/
inductive MhopTtl where
  | MHOP_CL_TTL_INFINITE
deriving DecidableEq, Repr

/-- The `printf` lines of the functions embedded here. -/
inductive Msg where
  | discarding_packet (packet_size : Nat)
  | packet_queue_full
  | packet_queue_recovered
  | l2cap_connect (channel_id : Nat)
  | l2cap_disconnect (channel_id : Nat)
deriving DecidableEq, Repr

/-- Calls that leave `sniffer.c`. -/
inductive Event where
  | bt_l2cap_send (channel_id : Nat) (payload : List Nat) (size : Nat)
  | bt_time_sync_send_mhop_pkt (timestamp : Nat) (payload : List Nat) (size : Nat)
      (dest : List Nat) (psm : Nat) (mode : MhopMode) (ttl : MhopTtl)
  | con_mgr_inq_disable
  | con_mgr_inq_enable
  | NutEventPost_snif_event_queue
  | NutSleep (ms : Nat)
  | printf (m : Msg)
deriving DecidableEq, Repr

/-- The globals of `sniffer.c` that the embedded functions read or write.
`l2cap_payload` is the content of `l2cap_pkt->payload`; the functions only write
it. -/
structure State where
  packet_buffers : List sniffed_packet
  packet_queue : List (Option Nat)
  packet_count : Nat
  l2cap_channel_id : Nat
  l2cap_payload : List Nat
  lastPacketSendToHost : Nat
  snif_have_sink : Nat
  snif_am_sink : Nat
  snif_sink : List Nat
  snif_config : List Nat
  snif_send_config : Nat
  snif_set_config : Nat
  connected : Nat
  packet_queue_warning : Nat
deriving DecidableEq, Repr

/-- The entry `packet_buffers[i]` -/
def bufAt (bufs : List sniffed_packet) (i : Nat) : sniffed_packet :=
  bufs.getD i default

/-- The entry `packet_queue[i]` -/
def queueAt (q : List (Option Nat)) (i : Nat) : Option Nat :=
  q.getD i none

/-! ## Priority queue of sniffed packets -/

/-- Function `packet_buffer_init`: every buffer is marked free, every queue position is
null, `packet_count = 0`. `raw i` is the content of the freshly allocated
`packet_buffers[i]`, of which only `free` is written. -/
def packet_buffer_init (raw : Nat → sniffed_packet) (s : State) : State :=
  { s with
    packet_buffers :=
      (List.range SNIFFED_PACKETED_BUFFER_SIZE).map (fun i => { raw i with free := 1 })
    packet_queue := List.replicate SNIFFED_PACKETED_BUFFER_SIZE none
    packet_count := 0 }

/-- The state after the initialisers of the globals and the assignments of `main`
(`packet_buffer_init(); snif_have_sink = 0; snif_am_sink = 0;`). -/
def initState (raw : Nat → sniffed_packet) : State :=
  packet_buffer_init raw
    { packet_buffers := []
      packet_queue := []
      packet_count := 0
      l2cap_channel_id := 0
      l2cap_payload := []
      lastPacketSendToHost := 0
      snif_have_sink := 0
      snif_am_sink := 0
      snif_sink := List.replicate 6 0
      snif_config := []
      snif_send_config := 0
      snif_set_config := 0
      connected := 0
      packet_queue_warning := 0 }

/-- The `for` loop of `packet_queue_get_empty`; `n` is the number of indices left
(`SNIFFED_PACKETED_BUFFER_SIZE - i`). -/
def getEmptyLoop (bufs : List sniffed_packet) : Nat → Nat → Option Nat × List sniffed_packet
  | 0, _ => (none, bufs)
  | n + 1, i =>
    if (bufAt bufs i).free ≠ 0 then
      (some i, bufs.set i { bufAt bufs i with free := 0 })
    else getEmptyLoop bufs n (i + 1)

/-- Function `packet_queue_get_empty`: the first free buffer, marked non-free, or null. -/
def packet_queue_get_empty (s : State) : Option Nat × State :=
  let r := getEmptyLoop s.packet_buffers SNIFFED_PACKETED_BUFFER_SIZE 0
  (r.1, { s with packet_buffers := r.2 })

/-- The first `while` loop of `packet_queue_insert`; `n` is
`SNIFFED_PACKETED_BUFFER_SIZE - pos`, so `n = 0` is the guard `pos < SIZE` failing. -/
def insertScan (bufs : List sniffed_packet) (q : List (Option Nat)) (key : Nat) :
    Nat → Nat → Nat
  | 0, pos => pos
  | n + 1, pos =>
    match queueAt q pos with
    | some b => if (bufAt bufs b).key < key then insertScan bufs q key n (pos + 1) else pos
    | none => pos

/-- The second `while` loop of `packet_queue_insert`, `last` counting down:
`while (last - 1 >= pos) { packet_queue[last] = packet_queue[last-1]; last--; }` -/
def insertShift (pos : Nat) : Nat → List (Option Nat) → List (Option Nat)
  | 0, q => q
  | last + 1, q =>
    if pos ≤ last then insertShift pos last (q.set (last + 1) (queueAt q last)) else q

/-- Function `packet_queue_insert(pkt, key)` with `pkt = &packet_buffers[pkt]`. When the scan
ends at `pos = SNIFFED_PACKETED_BUFFER_SIZE` the store `packet_queue[pos] = pkt` is
outside the array: the result is `none`. -/
def packet_queue_insert (pkt : Nat) (key : Nat) (s : State) : Option State :=
  let pos := insertScan s.packet_buffers s.packet_queue key SNIFFED_PACKETED_BUFFER_SIZE 0
  let q := insertShift pos (SNIFFED_PACKETED_BUFFER_SIZE - 1) s.packet_queue
  if pos < SNIFFED_PACKETED_BUFFER_SIZE then
    some { s with
      packet_queue := q.set pos (some pkt)
      packet_buffers := s.packet_buffers.set pkt { bufAt s.packet_buffers pkt with key := key }
      packet_count := (s.packet_count + 1) % 65536 }
  else none

/-- The `for` loop of `packet_queue_get_next`:
`for (i = 0; i < SIZE - 1; i++) packet_queue[i] = packet_queue[i+1];` -/
def getNextShift (q : List (Option Nat)) : List (Option Nat) :=
  (List.range (SNIFFED_PACKETED_BUFFER_SIZE - 1)).foldl
    (fun q i => q.set i (queueAt q (i + 1))) q

/-- Function `packet_queue_get_next`: the head of the queue, or null. -/
def packet_queue_get_next (s : State) : Option Nat × State :=
  match queueAt s.packet_queue 0 with
  | some b =>
    (some b, { s with
      packet_queue := getNextShift s.packet_queue
      packet_count := (s.packet_count + 65535) % 65536 })
  | none => (none, s)

/-- Function `packet_buffer_free(pkt)` with `pkt = &packet_buffers[pkt]`. -/
def packet_buffer_free (pkt : Nat) (s : State) : State :=
  { s with
    packet_buffers := s.packet_buffers.set pkt { bufAt s.packet_buffers pkt with free := 1 } }

/-- An admission as in `cl_sniffed` and `SNIFFER`: `packet_queue_get_empty` followed
by `packet_queue_insert(pkt, key)` on the buffer obtained. The result is the buffer
and the new state; `none` when no buffer is free or the insert leaves the array. -/
def admitPacket (key : Nat) (s : State) : Option (Nat × State) :=
  match packet_queue_get_empty s with
  | (some pkt, s1) => (packet_queue_insert pkt key s1).map (fun s2 => (pkt, s2))
  | (none, _) => none

/-- A sequence of admissions, one per key: the buffers obtained, in the order of
the admissions, and the final state. -/
def admitAll : List Nat → State → Option (List Nat × State)
  | [], s => some ([], s)
  | key :: keys, s =>
    match admitPacket key s with
    | some (pkt, s1) =>
      match admitAll keys s1 with
      | some (pkts, s2) => some (pkt :: pkts, s2)
      | none => none
    | none => none

/-- Repeated `packet_queue_get_next` while `packet_count > 0`, at most `fuel` times:
the pointers returned and the final state, or `none` when `fuel` calls were not
enough. -/
def drain : Nat → State → Option (List (Option Nat) × State)
  | 0, s => if s.packet_count > 0 then none else some ([], s)
  | fuel + 1, s =>
    if s.packet_count > 0 then
      match drain fuel (packet_queue_get_next s).2 with
      | some (ps, s1) => some ((packet_queue_get_next s).1 :: ps, s1)
      | none => none
    else some ([], s)

/-! ## Sink state and forwarding -/

/-- Constant `#define SNIF_PACKET_PSM 0x1017` -/
def SNIF_PACKET_PSM : Nat := 0x1017

/-- The four bytes of a `u_long` in memory, least significant first. -/
def le32 (x : Nat) : List Nat :=
  [x % 256, x / 256 % 256, x / 65536 % 256, x / 16777216 % 256]

/-- The bytes of a `struct sniffed_packet` from `&pkt->bt_addr` on: `bt_addr` (6),
`timestamp` (4), `len` (1), `data` (255). -/
def packet_content (pkt : sniffed_packet) : List Nat :=
  pkt.bt_addr ++ le32 pkt.timestamp ++ [pkt.len] ++ pkt.data

/-- Function `memcpy(dst, src, n)`: the first `n` bytes of `dst` are replaced by those of
`src`. -/
def memcpy (dst src : List Nat) (n : Nat) : List Nat :=
  src.take n ++ dst.drop n

/-- Function `sendSniffedPacket(pkt)` with `*pkt = pkt`; `now` is the value `NutGetMillis()`
returns. The events carry the bytes handed to the link: the first `packet_size`
bytes of the buffer passed. -/
def sendSniffedPacket (now : Nat) (pkt : sniffed_packet) (s : State) : State × List Event :=
  let packet_size := (SNIFFED_PACKET_HEADER_LEN + pkt.len) % 65536
  if packet_size > MAX_PAYLOAD_SIZE then
    (s, [Event.printf (Msg.discarding_packet packet_size)])
  else if s.snif_am_sink ≠ 0 then
    let payload := memcpy s.l2cap_payload (packet_content pkt) packet_size
    ({ s with l2cap_payload := payload, lastPacketSendToHost := now },
      [Event.bt_l2cap_send s.l2cap_channel_id (payload.take packet_size) packet_size])
  else if s.snif_have_sink ≠ 0 then
    (s, [Event.bt_time_sync_send_mhop_pkt pkt.timestamp
      ((packet_content pkt).take packet_size) packet_size s.snif_sink SNIF_PACKET_PSM
      MhopMode.MHOP_CL_UNICAST MhopTtl.MHOP_CL_TTL_INFINITE])
  else (s, [])

/-- Function `sendTick()`. `local_addr` is the address `bt_hci_get_local_bt_addr` writes,
`t1` and `t2` are the values of the two `NutGetMillis()` calls. -/
def sendTick (local_addr : List Nat) (t1 t2 : Nat) (s : State) : State × List Event :=
  let timestamp := t1
  let packet_size := SNIFFED_PACKET_HEADER_LEN
  let p1 := memcpy s.l2cap_payload local_addr 6
  let p2 := p1.take 6 ++ le32 timestamp ++ p1.drop 10
  let p3 := p2.take 10 ++ 0 :: p2.drop 11
  ({ s with l2cap_payload := p3, lastPacketSendToHost := t2 },
    [Event.bt_l2cap_send s.l2cap_channel_id (p3.take packet_size) packet_size])

/-- Function `cl_config`: `source` is the address `mhop_cl_get_source_addr` returns, `data`
the payload received, `sizeof_sniffer_config` is `sizeof(struct sniffer_config)`. -/
def cl_config (sizeof_sniffer_config : Nat) (source data : List Nat) (s : State) :
    State × List Event :=
  let s1 := { s with
    snif_config := memcpy s.snif_config data sizeof_sniffer_config
    snif_set_config := 1
    snif_sink := memcpy s.snif_sink source 6 }
  if s1.snif_have_sink = 0 then
    ({ s1 with snif_have_sink := 1 },
      [Event.con_mgr_inq_disable, Event.NutEventPost_snif_event_queue])
  else (s1, [Event.NutEventPost_snif_event_queue])

/-! ## The worker and the sniffer thread -/

/-- The networking check of `WORKER`; `nr_reliable_cons` is the value
`_bt_cm_get_nr_reliable_cons()` returns. -/
def workerHealthCheck (nr_reliable_cons : Nat) (s : State) : State × List Event :=
  if s.snif_have_sink ≠ 0 ∧ s.snif_am_sink = 0 then
    if nr_reliable_cons = 0 then
      ({ s with snif_have_sink := 0 }, [Event.con_mgr_inq_enable])
    else (s, [])
  else (s, [])

/-- The keep-alive step of `WORKER`:
`if (snif_am_sink && ((lastPacketSendToHost + 900) < NutGetMillis())) sendTick();`
with `u_long` arithmetic. `now` is the value of the `NutGetMillis()` in the test. -/
def workerKeepAlive (local_addr : List Nat) (now t1 t2 : Nat) (s : State) :
    State × List Event :=
  if s.snif_am_sink ≠ 0 ∧ (s.lastPacketSendToHost + 900) % 4294967296 < now then
    sendTick local_addr t1 t2 s
  else (s, [])

/-- The forwarding loop of `WORKER`, at most `fuel` iterations:
`while (packet_count > 0) { packet = packet_queue_get_next();
sendSniffedPacket(packet); packet_buffer_free(packet); }`.
`clk it` is the clock value in iteration `it`. The result is the final state, the
events and the number of iterations; `none` when `fuel` iterations were not enough
or `packet_queue_get_next` returned null, which `sendSniffedPacket` dereferences. -/
def workerDrain (clk : Nat → Nat) : Nat → Nat → State → Option (State × List Event × Nat)
  | 0, _, s => if s.packet_count > 0 then none else some (s, [], 0)
  | fuel + 1, it, s =>
    if s.packet_count > 0 then
      match packet_queue_get_next s with
      | (some pkt, s1) =>
        match workerDrain clk fuel (it + 1)
            (packet_buffer_free pkt
              (sendSniffedPacket (clk it) (bufAt s1.packet_buffers pkt) s1).1) with
        | some (s2, ev, n) =>
          some (s2, (sendSniffedPacket (clk it) (bufAt s1.packet_buffers pkt) s1).2 ++ ev, n + 1)
        | none => none
      | (none, _) => none
    else some (s, [], 0)

/-- One pass through the body of the `do ... while (packet == NULL)` loop of
`SNIFFER`, followed, when the loop is left, by the `if (packet_queue_warning)` behind
it. -/
def snifferReserve (s : State) : Option Nat × State × List Event :=
  match packet_queue_get_empty s with
  | (none, s1) =>
    if s1.packet_queue_warning = 0 then
      (none, { s1 with packet_queue_warning := 1 },
        [Event.NutSleep 100, Event.printf Msg.packet_queue_full])
    else (none, s1, [Event.NutSleep 100])
  | (some pkt, s1) =>
    if s1.packet_queue_warning ≠ 0 then
      (some pkt, { s1 with packet_queue_warning := 0 },
        [Event.printf Msg.packet_queue_recovered])
    else (some pkt, s1, [])

/-! ## Sequences of pool operations -/

/-- A call on the pool: `packet_queue_get_empty()` or `packet_buffer_free(pkt)` with
`pkt` one of the 16 buffers. -/
inductive PoolOp where
  | allocate
  | release (pkt : Fin 16)
deriving DecidableEq, Repr

/-- The state after one pool operation. -/
def poolStep : PoolOp → State → State
  | PoolOp.allocate, s => (packet_queue_get_empty s).2
  | PoolOp.release pkt, s => packet_buffer_free pkt.val s

/-- The state after a sequence of pool operations. -/
def poolRun : List PoolOp → State → State
  | [], s => s
  | op :: ops, s => poolRun ops (poolStep op s)

/-- The number of occupied buffers (`free == 0`). -/
def occupied (s : State) : Nat :=
  s.packet_buffers.countP (fun p => p.free == 0)

/-! ## The reserve loop of the sniffer thread among the other threads -/

/-- A step seen from the sniffer thread: one pass of its reserve loop, or a pool
operation of another thread while it sleeps or receives (the worker releasing a
buffer, `cl_sniffed` taking one). -/
inductive CaptureStep where
  | reserve
  | other (op : PoolOp)
deriving DecidableEq, Repr

/-- The result (buffer or null) and the events of every reserve pass of a sequence
of steps, in order. -/
def captureRun : List CaptureStep → State → List (Option Nat × List Event)
  | [], _ => []
  | CaptureStep.reserve :: steps, s =>
    ((snifferReserve s).1, (snifferReserve s).2.2) :: captureRun steps (snifferReserve s).2.1
  | CaptureStep.other op :: steps, s => captureRun steps (poolStep op s)

/-- Whether reserve pass `j` got null from `packet_queue_get_empty`. -/
def reserveFailed (recs : List (Option Nat × List Event)) (j : Nat) : Bool :=
  (recs.getD j (some 0, [])).1.isNone

/-- The events of reserve pass `j`. -/
def reserveLog (recs : List (Option Nat × List Event)) (j : Nat) : List Event :=
  (recs.getD j (some 0, [])).2

/-! ## Tick conversion -/

/-- Function `convertNutTicksToMillis(ticks)` in `u_long` arithmetic: every product
and the sum are reduced modulo `2^32`. -/
def convertNutTicksToMillis (ticks : Nat) : Nat :=
  let seconds := ticks >>> 10
  let ticks := ticks &&& 0x3ff
  ((seconds * 1000) % 4294967296 + ((ticks * 125) % 4294967296) / 128) % 4294967296

/-! ## Host link events and the role of the node -/

/-- Function `_snif_con_cb(type, detail, service_nr, channel_id, arg)`, the connection
callback of the host link. `BT_L2CAP_CONNECT` is the constant of the L2CAP header the
event type is compared with. -/
def _snif_con_cb (BT_L2CAP_CONNECT : Nat) (type channel_id : Nat) (s : State) :
    State × List Event :=
  if type = BT_L2CAP_CONNECT then
    ({ s with connected := 1, snif_am_sink := 1, l2cap_channel_id := channel_id },
      [Event.printf (Msg.l2cap_connect channel_id)])
  else
    ({ s with connected := 0, snif_am_sink := 0, snif_have_sink := 0 },
      [Event.printf (Msg.l2cap_disconnect channel_id)])

/-- The inquiry switch of the connection manager after a list of calls:
`con_mgr_inq_disable` turns periodic inquiry off, `con_mgr_inq_enable` turns it on,
no other call of `sniffer.c` touches it. -/
def inquiryAfter (enabled : Bool) : List Event → Bool
  | [] => enabled
  | Event.con_mgr_inq_disable :: evs => inquiryAfter false evs
  | Event.con_mgr_inq_enable :: evs => inquiryAfter true evs
  | _ :: evs => inquiryAfter enabled evs

/-- An event that changes the role of the node: a configuration message
(`cl_config`), a connection event of the host link (`_snif_con_cb`), or the networking
check of a worker cycle. -/
inductive RoleEvent where
  | config (source data : List Nat)
  | con_cb (type channel_id : Nat)
  | health_check (nr_reliable_cons : Nat)
deriving DecidableEq, Repr

/-- One role event on the globals and the inquiry switch. -/
def roleStep (sizeof_sniffer_config BT_L2CAP_CONNECT : Nat) :
    RoleEvent → State × Bool → State × Bool
  | RoleEvent.config source data, (s, inq) =>
    ((cl_config sizeof_sniffer_config source data s).1,
      inquiryAfter inq (cl_config sizeof_sniffer_config source data s).2)
  | RoleEvent.con_cb type channel_id, (s, inq) =>
    ((_snif_con_cb BT_L2CAP_CONNECT type channel_id s).1,
      inquiryAfter inq (_snif_con_cb BT_L2CAP_CONNECT type channel_id s).2)
  | RoleEvent.health_check nr_reliable_cons, (s, inq) =>
    ((workerHealthCheck nr_reliable_cons s).1,
      inquiryAfter inq (workerHealthCheck nr_reliable_cons s).2)

/-- A sequence of role events. -/
def roleRun (sizeof_sniffer_config BT_L2CAP_CONNECT : Nat) :
    List RoleEvent → State × Bool → State × Bool
  | [], x => x
  | ev :: evs, x =>
    roleRun sizeof_sniffer_config BT_L2CAP_CONNECT evs
      (roleStep sizeof_sniffer_config BT_L2CAP_CONNECT ev x)

/-! ## The queue and the pool as the program uses them -/

/-- The globals together with the buffers in the hands of the threads: `reserved`
are the buffers obtained from `packet_queue_get_empty` and not yet inserted,
`returned` the buffers returned by `packet_queue_get_next` and not yet freed. -/
structure Usage where
  s : State
  reserved : List Nat
  returned : List Nat
deriving DecidableEq, Repr

/-- The calls on the queue and the pool as `cl_sniffed`, `SNIFFER` and `WORKER` make
them. -/
inductive UsageOp where
  | get_empty
  | insert (pkt key : Nat)
  | get_next
  | free (pkt : Nat)
deriving DecidableEq, Repr

/-- One call. `packet_queue_insert` is called on a reserved buffer only,
`packet_queue_get_next` while `packet_count > 0` only, `packet_buffer_free` on a
returned buffer only; any other call is not one the program makes and is skipped.
The result is `none` when `packet_queue_insert` stores outside `packet_queue`. -/
def usageStep : UsageOp → Usage → Option Usage
  | UsageOp.get_empty, u =>
    match packet_queue_get_empty u.s with
    | (some pkt, s1) => some { u with s := s1, reserved := pkt :: u.reserved }
    | (none, s1) => some { u with s := s1 }
  | UsageOp.insert pkt key, u =>
    if pkt ∈ u.reserved then
      match packet_queue_insert pkt key u.s with
      | some s1 => some { u with s := s1, reserved := u.reserved.erase pkt }
      | none => none
    else some u
  | UsageOp.get_next, u =>
    if u.s.packet_count > 0 then
      match packet_queue_get_next u.s with
      | (some pkt, s1) => some { u with s := s1, returned := pkt :: u.returned }
      | (none, s1) => some { u with s := s1 }
    else some u
  | UsageOp.free pkt, u =>
    if pkt ∈ u.returned then
      some { u with s := packet_buffer_free pkt u.s, returned := u.returned.erase pkt }
    else some u

/-- A sequence of calls. -/
def usageRun : List UsageOp → Usage → Option Usage
  | [], u => some u
  | op :: ops, u =>
    match usageStep op u with
    | some u1 => usageRun ops u1
    | none => none

/-- The state after `packet_buffer_init`, no buffer in the hands of a thread. -/
def initUsage (raw : Nat → sniffed_packet) : Usage :=
  { s := initState raw, reserved := [], returned := [] }

/-- The number of empty (null) positions of `packet_queue`. -/
def emptyPositions (s : State) : Nat :=
  s.packet_queue.count none

/-- The number of free buffers (`free != 0`). -/
def freeSlots (s : State) : Nat :=
  s.packet_buffers.countP (fun p => p.free != 0)

/-- Sixteen admissions with the keys 0 .. 15: buffer `i` is obtained and inserted
with key `i`. -/
def sixteenAdmissions : List UsageOp :=
  (List.range 16).flatMap (fun i => [UsageOp.get_empty, UsageOp.insert i i])

/-- Sixteen iterations of the forwarding loop: buffer `i` is returned by
`packet_queue_get_next` and freed. -/
def sixteenForwards : List UsageOp :=
  (List.range 16).flatMap (fun i => [UsageOp.get_next, UsageOp.free i])

/-! ## Abstraction of the queue, invariants and sample states -/

/-- The array that holds the buffers `l` from the head on and null in every other
position. -/
def queueOf (l : List Nat) : List (Option Nat) :=
  l.map some ++ List.replicate (SNIFFED_PACKETED_BUFFER_SIZE - l.length) none

/-- The states reached from the initial state by admitting the keys `ks`: buffers
`0 .. ks.length - 1` are in use and carry the keys in the order of admission, the
other buffers are free, and the queue holds the buffers in use sorted by key. -/
structure Admitted (ks : List Nat) (s : State) : Prop where
  bufs_len : s.packet_buffers.length = 16
  used : ∀ i, i < ks.length → (bufAt s.packet_buffers i).free = 0
  unused : ∀ i, ks.length ≤ i → i < 16 → (bufAt s.packet_buffers i).free = 1
  keys : (List.range ks.length).map (fun i => (bufAt s.packet_buffers i).key) = ks
  queue : ∃ l, s.packet_queue = queueOf l ∧ l.Perm (List.range ks.length) ∧
    l.Pairwise (fun a b => (bufAt s.packet_buffers a).key ≤ (bufAt s.packet_buffers b).key)
  count : s.packet_count = ks.length

/-- The pool has 16 buffers and every `free` flag is 0 or 1. -/
structure PoolInv (s : State) : Prop where
  bufs_len : s.packet_buffers.length = 16
  flags : ∀ i, i < 16 → (bufAt s.packet_buffers i).free = 0 ∨ (bufAt s.packet_buffers i).free = 1

/-- A queue state with one packet of key 7 queued (buffer 0) and a second buffer
(buffer 1) obtained from `packet_queue_get_empty`, not yet inserted. -/
def oneQueuedState : State :=
  match admitAll [7] (initState (fun _ => default)) with
  | some (_, s) => (packet_queue_get_empty s).2
  | none => initState (fun _ => default)

/-- A packet with the address 1..6, timestamp 1000 and `len` payload bytes. -/
def samplePacket (len : Nat) : sniffed_packet :=
  { free := 0, key := 1000, bt_addr := [1, 2, 3, 4, 5, 6], timestamp := 1000, len := len,
    data := List.replicate 255 170 }

/-- The initial state with the host link up (`snif_am_sink = 1`) and a 120-byte link
buffer. -/
def sinkState : State :=
  { initState (fun _ => default) with snif_am_sink := 1, l2cap_payload := List.replicate 120 0 }

/-- A sink state whose last host send was 100 ms before the `u_long` clock wraps. -/
def wrapState : State :=
  { sinkState with lastPacketSendToHost := 4294967196 }

/-- Sixteen reserve passes that succeed, two that fail, a release of buffer 3 by the
worker, and a reserve pass that succeeds. -/
def pressureSteps : List CaptureStep :=
  List.replicate 18 CaptureStep.reserve ++
    [CaptureStep.other (PoolOp.release 3), CaptureStep.reserve]

/-- A sink state with two packets queued: buffer 0 with `len = 90` (framed size 101,
too large) and buffer 1 with `len = 4`; the other buffers are free. -/
def twoQueuedState : State :=
  { sinkState with
    packet_buffers :=
      { free := 0, key := 1, bt_addr := [1, 2, 3, 4, 5, 6], timestamp := 1, len := 90,
        data := [] } ::
      { free := 0, key := 2, bt_addr := [1, 2, 3, 4, 5, 6], timestamp := 2, len := 4,
        data := [] } ::
      List.replicate 14 { (default : sniffed_packet) with free := 1 }
    packet_queue := queueOf [0, 1]
    packet_count := 2 }

/-- The invariant of the queue and the pool under the usage of the program: the queue
holds the buffers `l` from the head on and null elsewhere, `packet_count` is their
number, the queued, reserved and returned buffers are pairwise distinct, and they are
exactly the occupied buffers. -/
structure UsageInv (u : Usage) : Prop where
  bufs_len : u.s.packet_buffers.length = 16
  queue : ∃ l, u.s.packet_queue = queueOf l ∧ u.s.packet_count = l.length ∧
    (l ++ (u.reserved ++ u.returned)).Nodup ∧
    ∀ p, p ∈ l ++ (u.reserved ++ u.returned) ↔
      (p < 16 ∧ (bufAt u.s.packet_buffers p).free = 0)

/-- Whether in a sequence of calls `packet_queue_get_next` is never called with 16
packets queued. -/
def neverPopsFull : List UsageOp → Usage → Bool
  | [], _ => true
  | op :: ops, u =>
    decide (op = UsageOp.get_next → u.s.packet_count < 16) &&
      (match usageStep op u with
       | some u1 => neverPopsFull ops u1
       | none => true)

/-! ## Arrays of `SNIFFED_PACKETED_BUFFER_SIZE` entries -/

theorem length_succ_split {α : Type} {n : Nat} (l : List α) (h : l.length = n + 1) :
    ∃ a t, l = a :: t ∧ t.length = n := by
  cases l with
  | nil => simp at h
  | cons a t => exact ⟨a, t, rfl, by simpa using h⟩

theorem array16_split {α : Type} (q : List α) (h : q.length = 16) :
    ∃ a0 a1 a2 a3 a4 a5 a6 a7 a8 a9 a10 a11 a12 a13 a14 a15,
      q = [a0, a1, a2, a3, a4, a5, a6, a7, a8, a9, a10, a11, a12, a13, a14, a15] := by
  obtain ⟨a0, t0, rfl, h0⟩ := length_succ_split q h
  obtain ⟨a1, t1, rfl, h1⟩ := length_succ_split t0 h0
  obtain ⟨a2, t2, rfl, h2⟩ := length_succ_split t1 h1
  obtain ⟨a3, t3, rfl, h3⟩ := length_succ_split t2 h2
  obtain ⟨a4, t4, rfl, h4⟩ := length_succ_split t3 h3
  obtain ⟨a5, t5, rfl, h5⟩ := length_succ_split t4 h4
  obtain ⟨a6, t6, rfl, h6⟩ := length_succ_split t5 h5
  obtain ⟨a7, t7, rfl, h7⟩ := length_succ_split t6 h6
  obtain ⟨a8, t8, rfl, h8⟩ := length_succ_split t7 h7
  obtain ⟨a9, t9, rfl, h9⟩ := length_succ_split t8 h8
  obtain ⟨a10, t10, rfl, h10⟩ := length_succ_split t9 h9
  obtain ⟨a11, t11, rfl, h11⟩ := length_succ_split t10 h10
  obtain ⟨a12, t12, rfl, h12⟩ := length_succ_split t11 h11
  obtain ⟨a13, t13, rfl, h13⟩ := length_succ_split t12 h12
  obtain ⟨a14, t14, rfl, h14⟩ := length_succ_split t13 h13
  obtain ⟨a15, t15, rfl, h15⟩ := length_succ_split t14 h14
  have hnil : t15 = [] := List.length_eq_zero.mp h15
  subst hnil
  exact ⟨a0, a1, a2, a3, a4, a5, a6, a7, a8, a9, a10, a11, a12, a13, a14, a15, rfl⟩

/-- The loop of `packet_queue_get_next` moves every entry one position towards the
head and leaves the last position as it was. -/
theorem getNextShift_eq (q : List (Option Nat)) (h : q.length = 16) :
    getNextShift q = q.tail ++ [queueAt q 15] := by
  obtain ⟨a0, a1, a2, a3, a4, a5, a6, a7, a8, a9, a10, a11, a12, a13, a14, a15, rfl⟩ :=
    array16_split q h
  rfl

/-- The shift loop of `packet_queue_insert` followed by the store at `pos` inserts
the new entry at `pos` and drops the last entry of the array. -/
theorem insertShift_set (q : List (Option Nat)) (h : q.length = 16) (pos : Nat)
    (hpos : pos < 16) (x : Option Nat) :
    (insertShift pos 15 q).set pos x = (q.take pos ++ x :: q.drop pos).take 16 := by
  obtain ⟨a0, a1, a2, a3, a4, a5, a6, a7, a8, a9, a10, a11, a12, a13, a14, a15, rfl⟩ :=
    array16_split q h
  interval_cases pos <;> simp [insertShift, queueAt]

/-! ## The queue as a list of buffers -/

theorem queueAt_append_cons (pre t : List (Option Nat)) (x : Option Nat) :
    queueAt (pre ++ x :: t) pre.length = x := by
  unfold queueAt
  rw [List.getD_eq_getElem?_getD, List.getElem?_append_right (Nat.le_refl _)]
  simp

/-- The scan loop of `packet_queue_insert` stops behind the entries whose key is
smaller than `key`: at the first entry with a key `≥ key`, at the first null
position, or at the end of the array. -/
theorem insertScan_eq (bufs : List sniffed_packet) (key : Nat) (l : List Nat) :
    ∀ (pre rest : List (Option Nat)) (n : Nat), n = l.length + rest.length →
      (∀ x, rest.head? = some x → x = none) →
      insertScan bufs (pre ++ l.map some ++ rest) key n pre.length
        = pre.length + (l.takeWhile (fun b => decide ((bufAt bufs b).key < key))).length := by
  induction l with
  | nil =>
    intro pre rest n hn hrest
    cases rest with
    | nil => subst hn; simp [insertScan]
    | cons x rest =>
      have hx : x = none := hrest x rfl
      subst hx
      have hn1 : n = rest.length + 1 := by simpa using hn
      subst hn1
      simp [insertScan, queueAt_append_cons]
  | cons a l ih =>
    intro pre rest n hn hrest
    have hn1 : n = (l.length + rest.length) + 1 := by simp at hn; omega
    subst hn1
    have hq : pre ++ List.map some (a :: l) ++ rest
        = pre ++ some a :: (List.map some l ++ rest) := by simp
    have hq2 : pre ++ List.map some (a :: l) ++ rest
        = (pre ++ [some a]) ++ List.map some l ++ rest := by simp
    rw [insertScan, hq, queueAt_append_cons]
    by_cases hlt : (bufAt bufs a).key < key
    · have := ih (pre ++ [some a]) rest (l.length + rest.length) rfl hrest
      simp only [List.length_append, List.length_singleton] at this
      show (if (bufAt bufs a).key < key then _ else _) = _
      rw [if_pos hlt, ← hq, hq2, this]
      simp [hlt, List.takeWhile_cons]
      omega
    · show (if (bufAt bufs a).key < key then _ else _) = _
      rw [if_neg hlt]
      simp [hlt, List.takeWhile_cons]

theorem queueOf_length (l : List Nat) (h : l.length ≤ 16) : (queueOf l).length = 16 := by
  simp [queueOf, SNIFFED_PACKETED_BUFFER_SIZE]; omega

theorem take_insert_queueOf (l1 l2 : List Nat) (pkt : Nat) (h : l1.length + l2.length < 16) :
    ((queueOf (l1 ++ l2)).take l1.length ++ some pkt :: (queueOf (l1 ++ l2)).drop l1.length).take 16
      = queueOf (l1 ++ pkt :: l2) := by
  have e1 : queueOf (l1 ++ l2)
      = l1.map some ++ (l2.map some ++ List.replicate (16 - (l1.length + l2.length)) none) := by
    simp [queueOf, SNIFFED_PACKETED_BUFFER_SIZE]
  have e2 : (l1.map some).length = l1.length := by simp
  rw [e1, List.take_left' e2, List.drop_left' e2]
  have e3 : 16 - (l1.length + l2.length) = (15 - (l1.length + l2.length)) + 1 := by omega
  rw [e3, List.replicate_succ']
  have e4 : l1.map some ++ some pkt :: (l2.map some ++
        (List.replicate (15 - (l1.length + l2.length)) none ++ [none]))
      = (l1.map some ++ some pkt :: (l2.map some ++
        List.replicate (15 - (l1.length + l2.length)) none)) ++ [none] := by simp
  rw [e4, List.take_append_of_le_length (by simp; omega), List.take_of_length_le (by simp; omega)]
  simp [queueOf, SNIFFED_PACKETED_BUFFER_SIZE]
  omega

/-- Calling `packet_queue_insert` on a queue that holds the buffers `l` (fewer than 16): the
new buffer goes behind the entries with a smaller key and before every entry whose
key is `≥ key`; its `key` field is written and `packet_count` is incremented. -/
theorem packet_queue_insert_spec (s : State) (l : List Nat) (pkt key : Nat)
    (hq : s.packet_queue = queueOf l) (hl : l.length < 16) :
    packet_queue_insert pkt key s = some { s with
      packet_queue := queueOf
        (l.takeWhile (fun b => decide ((bufAt s.packet_buffers b).key < key)) ++
          pkt :: l.dropWhile (fun b => decide ((bufAt s.packet_buffers b).key < key)))
      packet_buffers := s.packet_buffers.set pkt { bufAt s.packet_buffers pkt with key := key }
      packet_count := (s.packet_count + 1) % 65536 } := by
  have hscan := insertScan_eq s.packet_buffers key l [] (List.replicate (16 - l.length) none) 16
    (by simp; omega) (by
      intro x hx
      have e : 16 - l.length = (15 - l.length) + 1 := by omega
      rw [e, List.replicate_succ] at hx
      simpa using hx.symm)
  simp only [List.nil_append, List.length_nil, Nat.zero_add] at hscan
  have hsplit := List.takeWhile_append_dropWhile
    (fun b => decide ((bufAt s.packet_buffers b).key < key)) l
  have hlen : (l.takeWhile (fun b => decide ((bufAt s.packet_buffers b).key < key))).length +
      (l.dropWhile (fun b => decide ((bufAt s.packet_buffers b).key < key))).length
        = l.length := by
    rw [← List.length_append, hsplit]
  unfold packet_queue_insert
  simp only [SNIFFED_PACKETED_BUFFER_SIZE, hq, queueOf] at *
  rw [hscan, if_pos (by omega)]
  rw [insertShift_set _ (by simp; omega) _ (by omega)]
  have := take_insert_queueOf _ _ pkt (by rw [hlen]; exact hl)
  rw [hsplit] at this
  simp only [SNIFFED_PACKETED_BUFFER_SIZE, queueOf] at this
  rw [this]

/-- Calling `packet_queue_get_next` on a queue whose head is not null: the head is
returned, the other entries move up by one, the last position keeps its entry, and
`packet_count` is decremented. -/
theorem packet_queue_get_next_cons (s : State) (a : Nat) (t : List (Option Nat))
    (hq : s.packet_queue = some a :: t) (hlen : s.packet_queue.length = 16) :
    packet_queue_get_next s = (some a, { s with
      packet_queue := t ++ [queueAt s.packet_queue 15]
      packet_count := (s.packet_count + 65535) % 65536 }) := by
  unfold packet_queue_get_next
  have h0 : queueAt s.packet_queue 0 = some a := by rw [hq]; rfl
  rw [h0]
  simp only
  rw [getNextShift_eq _ hlen, hq]
  rfl

/-- Calling `packet_queue_get_next` on a queue whose head is null returns null and changes
nothing. -/
theorem packet_queue_get_next_null (s : State) (h : queueAt s.packet_queue 0 = none) :
    packet_queue_get_next s = (none, s) := by
  unfold packet_queue_get_next
  rw [h]

/-- A drain of a queue whose first `packet_count` positions hold the buffers `l`
returns exactly `l`, in the order of the queue, after `l.length` calls. -/
theorem drain_spec (l : List Nat) : ∀ (rest : List (Option Nat)) (s : State),
    s.packet_queue = l.map some ++ rest → s.packet_queue.length = 16 →
    s.packet_count = l.length →
    ∃ s1, drain l.length s = some (l.map some, s1) ∧ s1.packet_count = 0 ∧
      s1.packet_buffers = s.packet_buffers := by
  induction l with
  | nil =>
    intro rest s _ _ hc
    exact ⟨s, by simp [drain, hc], hc, rfl⟩
  | cons a l ih =>
    intro rest s hq hlen hc
    have hl16 : l.length + 1 ≤ 16 := by
      have := congrArg List.length hq
      rw [hlen] at this
      simp at this
      omega
    have hnext := packet_queue_get_next_cons s a (l.map some ++ rest)
      (by rw [hq]; simp) hlen
    obtain ⟨s1, h1, h2, h3⟩ := ih (rest ++ [queueAt s.packet_queue 15])
      (packet_queue_get_next s).2
      (by rw [hnext]; simp)
      (by
        rw [hnext]
        have := congrArg List.length hq
        rw [hlen] at this
        simp at this ⊢
        omega)
      (by rw [hnext, hc]; simp; omega)
    refine ⟨s1, ?_, h2, ?_⟩
    · have hpos : s.packet_count > 0 := by rw [hc]; simp
      rw [List.length_cons, drain, if_pos hpos, h1, hnext]
      simp
    · rw [h3, hnext]

/-! ## The packet pool -/

theorem bufAt_set_eq (bufs : List sniffed_packet) (i : Nat) (x : sniffed_packet)
    (h : i < bufs.length) : bufAt (bufs.set i x) i = x := by
  simp [bufAt, List.getD_eq_getElem?_getD, h]

theorem bufAt_set_ne (bufs : List sniffed_packet) (i j : Nat) (x : sniffed_packet)
    (h : i ≠ j) : bufAt (bufs.set i x) j = bufAt bufs j := by
  simp [bufAt, List.getD_eq_getElem?_getD, List.getElem?_set_ne h]

/-- The loop of `packet_queue_get_empty` either stops at the first buffer whose
`free` flag is set, clearing that flag, or finds every buffer in its range
non-free and leaves the pool as it is. -/
theorem getEmptyLoop_spec (bufs : List sniffed_packet) : ∀ (n i : Nat),
    (∃ j, i ≤ j ∧ j < i + n ∧ (bufAt bufs j).free ≠ 0 ∧
        (∀ k, i ≤ k → k < j → (bufAt bufs k).free = 0) ∧
        getEmptyLoop bufs n i = (some j, bufs.set j { bufAt bufs j with free := 0 })) ∨
    ((∀ k, i ≤ k → k < i + n → (bufAt bufs k).free = 0) ∧
        getEmptyLoop bufs n i = (none, bufs)) := by
  intro n
  induction n with
  | zero =>
    intro i
    exact Or.inr ⟨fun k h1 h2 => absurd h2 (by omega), rfl⟩
  | succ n ih =>
    intro i
    by_cases hf : (bufAt bufs i).free ≠ 0
    · exact Or.inl ⟨i, Nat.le_refl _, by omega, hf, fun k h1 h2 => absurd h2 (by omega),
        by rw [getEmptyLoop, if_pos hf]⟩
    · have hf0 : (bufAt bufs i).free = 0 := not_not.mp hf
      rcases ih (i + 1) with ⟨j, h1, h2, h3, h4, h5⟩ | ⟨h1, h2⟩
      · refine Or.inl ⟨j, by omega, by omega, h3, ?_, by rw [getEmptyLoop, if_neg hf, h5]⟩
        intro k hk1 hk2
        by_cases hki : k = i
        · rw [hki]; exact hf0
        · exact h4 k (by omega) hk2
      · refine Or.inr ⟨?_, by rw [getEmptyLoop, if_neg hf, h2]⟩
        intro k hk1 hk2
        by_cases hki : k = i
        · rw [hki]; exact hf0
        · exact h1 k (by omega) (by omega)

/-- Calling `packet_queue_get_empty` when the buffers before `k` are in use and buffer `k` is
free: buffer `k` is returned and marked non-free. -/
theorem packet_queue_get_empty_first (s : State) (k : Nat) (hk : k < 16)
    (hused : ∀ i, i < k → (bufAt s.packet_buffers i).free = 0)
    (hfree : (bufAt s.packet_buffers k).free ≠ 0) :
    packet_queue_get_empty s = (some k, { s with
      packet_buffers := s.packet_buffers.set k { bufAt s.packet_buffers k with free := 0 } }) := by
  unfold packet_queue_get_empty
  rcases getEmptyLoop_spec s.packet_buffers 16 0 with ⟨j, _, h2, h3, h4, h5⟩ | ⟨h1, _⟩
  · have hjk : j = k := by
      rcases Nat.lt_trichotomy j k with h | h | h
      · exact absurd (hused j h) h3
      · exact h
      · exact absurd (h4 k (Nat.zero_le _) h) hfree
    subst hjk
    simp only [SNIFFED_PACKETED_BUFFER_SIZE, h5]
  · exact absurd (h1 k (Nat.zero_le _) (by omega)) hfree

/-! ## Admissions from the initial state -/

/-- Inserting `x` behind the entries with a smaller key keeps a list sorted by key.
`g` gives the keys the scan reads, `f` the keys after the new key has been stored. -/
theorem pairwise_insert (g f : Nat → Nat) (key x : Nat) (l : List Nat)
    (hgf : ∀ a ∈ l, g a = f a) (hx : f x = key)
    (h : l.Pairwise (fun a b => g a ≤ g b)) :
    (l.takeWhile (fun b => decide (g b < key)) ++
      x :: l.dropWhile (fun b => decide (g b < key))).Pairwise (fun a b => f a ≤ f b) := by
  induction l with
  | nil => simp
  | cons a l ih =>
    rw [List.pairwise_cons] at h
    have ih1 := ih (fun b hb => hgf b (List.mem_cons_of_mem _ hb)) h.2
    have ha := hgf a (List.mem_cons_self _ _)
    by_cases hlt : g a < key
    · simp only [List.takeWhile_cons, List.dropWhile_cons, hlt, decide_True, if_true,
        List.cons_append]
      rw [List.pairwise_cons]
      refine ⟨?_, ih1⟩
      intro b hb
      rcases List.mem_append.mp hb with hb1 | hb1
      · have hbl := (List.takeWhile_sublist _).subset hb1
        rw [← ha, ← hgf b (List.mem_cons_of_mem _ hbl)]
        exact h.1 b hbl
      · rcases List.mem_cons.mp hb1 with hb2 | hb2
        · rw [hb2, hx, ← ha]; omega
        · have hbl := (List.dropWhile_sublist _).subset hb2
          rw [← ha, ← hgf b (List.mem_cons_of_mem _ hbl)]
          exact h.1 b hbl
    · simp only [List.takeWhile_cons, List.dropWhile_cons, hlt, decide_False, List.nil_append]
      simp only [Bool.false_eq_true, if_false]
      rw [List.nil_append, List.pairwise_cons, List.pairwise_cons]
      refine ⟨?_, ?_, ?_⟩
      · intro b hb
        rcases List.mem_cons.mp hb with hb1 | hb1
        · rw [hb1, hx, ← ha]; omega
        · have := h.1 b hb1
          rw [hx, ← hgf b (List.mem_cons_of_mem _ hb1)]
          omega
      · intro b hb
        rw [← ha, ← hgf b (List.mem_cons_of_mem _ hb)]
        exact h.1 b hb
      · exact h.2.imp_of_mem (fun {a b} ha1 hb1 hab => by
          rw [← hgf a (List.mem_cons_of_mem _ ha1), ← hgf b (List.mem_cons_of_mem _ hb1)]
          exact hab)

theorem admitted_init (raw : Nat → sniffed_packet) : Admitted [] (initState raw) where
  bufs_len := by simp [initState, packet_buffer_init, SNIFFED_PACKETED_BUFFER_SIZE]
  used := fun i h => absurd h (by simp)
  unused := by
    intro i _ h16
    simp [initState, packet_buffer_init, SNIFFED_PACKETED_BUFFER_SIZE, bufAt,
      List.getD_eq_getElem?_getD, h16]
  keys := rfl
  queue := ⟨[], rfl, by simp, List.Pairwise.nil⟩
  count := rfl

/-- The facts about `packet_queue_get_empty_first` in terms of the fields read
afterwards. -/
theorem packet_queue_get_empty_first_fields (s : State) (k : Nat)
    (hk : k < s.packet_buffers.length) (hk16 : k < 16)
    (hused : ∀ i, i < k → (bufAt s.packet_buffers i).free = 0)
    (hfree : (bufAt s.packet_buffers k).free ≠ 0) :
    ∃ s1, packet_queue_get_empty s = (some k, s1) ∧ s1.packet_queue = s.packet_queue ∧
      s1.packet_count = s.packet_count ∧
      s1.packet_buffers.length = s.packet_buffers.length ∧
      (bufAt s1.packet_buffers k).free = 0 ∧
      (∀ i, i ≠ k → bufAt s1.packet_buffers i = bufAt s.packet_buffers i) := by
  refine ⟨_, packet_queue_get_empty_first s k hk16 hused hfree, rfl, rfl, ?_, ?_, ?_⟩
  · simp
  · simp only
    rw [bufAt_set_eq _ _ _ hk]
  · intro i hi
    exact bufAt_set_ne _ _ _ _ (Ne.symm hi)

/-- The facts about `packet_queue_insert_spec` in terms of the fields read
afterwards. -/
theorem packet_queue_insert_fields (s : State) (l : List Nat) (pkt key : Nat)
    (hq : s.packet_queue = queueOf l) (hl : l.length < 16)
    (hpkt : pkt < s.packet_buffers.length) :
    ∃ s1, packet_queue_insert pkt key s = some s1 ∧
      s1.packet_queue = queueOf
        (l.takeWhile (fun b => decide ((bufAt s.packet_buffers b).key < key)) ++
          pkt :: l.dropWhile (fun b => decide ((bufAt s.packet_buffers b).key < key))) ∧
      s1.packet_count = (s.packet_count + 1) % 65536 ∧
      s1.packet_buffers.length = s.packet_buffers.length ∧
      (bufAt s1.packet_buffers pkt).key = key ∧
      (bufAt s1.packet_buffers pkt).free = (bufAt s.packet_buffers pkt).free ∧
      (∀ i, i ≠ pkt → bufAt s1.packet_buffers i = bufAt s.packet_buffers i) := by
  refine ⟨_, packet_queue_insert_spec s l pkt key hq hl, rfl, rfl, ?_, ?_, ?_, ?_⟩
  · simp
  · simp only
    rw [bufAt_set_eq _ _ _ hpkt]
  · simp only
    rw [bufAt_set_eq _ _ _ hpkt]
  · intro i hi
    exact bufAt_set_ne _ _ _ _ (Ne.symm hi)

/-- One admission from a state reached by admissions, with a buffer still free:
the next buffer is obtained and inserted, and the invariant holds again. -/
theorem admitPacket_step (ks : List Nat) (s : State) (key : Nat) (h : Admitted ks s)
    (hk : ks.length < 16) :
    ∃ s1, admitPacket key s = some (ks.length, s1) ∧ Admitted (ks ++ [key]) s1 := by
  obtain ⟨l, hq, hperm, hsorted⟩ := h.queue
  have hll : l.length = ks.length := by rw [hperm.length_eq, List.length_range]
  have hmem : ∀ a ∈ l, a ≠ ks.length := fun a ha => by
    have := List.mem_range.mp (hperm.subset ha); omega
  have hfree : (bufAt s.packet_buffers ks.length).free ≠ 0 := by
    rw [h.unused _ (Nat.le_refl _) hk]; decide
  obtain ⟨s1, hge, hq1, hc1, hlen1, hfree1, hold1⟩ :=
    packet_queue_get_empty_first_fields s ks.length (by rw [h.bufs_len]; exact hk) hk
      h.used hfree
  obtain ⟨s2, hins, hq2, hc2, hlen2, hkey2, hfree2, hold2⟩ :=
    packet_queue_insert_fields s1 l ks.length key (by rw [hq1]; exact hq) (by omega)
      (by rw [hlen1, h.bufs_len]; exact hk)
  have hold : ∀ i, i ≠ ks.length → bufAt s2.packet_buffers i = bufAt s.packet_buffers i :=
    fun i hi => by rw [hold2 i hi, hold1 i hi]
  refine ⟨s2, ?_, ?_⟩
  · unfold admitPacket
    rw [hge]
    simp only
    rw [hins]
    rfl
  · constructor
    · rw [hlen2, hlen1]; exact h.bufs_len
    · intro i hi
      simp only [List.length_append, List.length_singleton] at hi
      by_cases hik : i = ks.length
      · rw [hik, hfree2, hfree1]
      · rw [hold i hik]
        exact h.used i (by omega)
    · intro i hi h16
      simp only [List.length_append, List.length_singleton] at hi
      rw [hold i (by omega)]
      exact h.unused i (by omega) h16
    · simp only [List.length_append, List.length_singleton, List.range_succ, List.map_append,
        List.map_cons, List.map_nil]
      rw [hkey2]
      congr 1
      conv_rhs => rw [← h.keys]
      apply List.map_congr_left
      intro i hi
      rw [hold i (by have := List.mem_range.mp hi; omega)]
    · refine ⟨_, hq2, ?_, ?_⟩
      · simp only [List.length_append, List.length_singleton, List.range_succ]
        refine List.perm_middle.trans ?_
        rw [List.takeWhile_append_dropWhile]
        exact (List.perm_append_singleton _ _).symm.trans (List.Perm.append_right _ hperm)
      · apply pairwise_insert
        · intro a ha
          rw [hold1 a (hmem a ha), hold a (hmem a ha)]
        · exact hkey2
        · exact hsorted.imp_of_mem (fun {a b} ha hb hab => by
            rw [hold1 a (hmem a ha), hold1 b (hmem b hb)]
            exact hab)
    · simp only [List.length_append, List.length_singleton]
      rw [hc2, hc1, h.count]
      omega

/-- A sequence of admissions that fits into the pool succeeds, uses the buffers in
ascending order and keeps the invariant. -/
theorem admitAll_spec : ∀ (todo done : List Nat) (s : State), Admitted done s →
    done.length + todo.length ≤ 16 →
    ∃ s1, admitAll todo s = some (List.range' done.length todo.length, s1) ∧
      Admitted (done ++ todo) s1 := by
  intro todo
  induction todo with
  | nil =>
    intro done s h _
    exact ⟨s, rfl, by rw [List.append_nil]; exact h⟩
  | cons key todo ih =>
    intro done s h hlen
    simp only [List.length_cons] at hlen
    obtain ⟨s1, hadm, h1⟩ := admitPacket_step done s key h (by omega)
    obtain ⟨s2, hall, h2⟩ := ih (done ++ [key]) s1 h1 (by simp; omega)
    refine ⟨s2, ?_, by simpa using h2⟩
    simp only [List.length_append, List.length_singleton] at hall
    rw [admitAll, hadm]
    simp only
    rw [hall]
    simp [List.range'_succ]

/-! ## Claims about the queue -/

/-- C1: starting from the state produced by `packet_buffer_init`, after `k ≤ 16`
admissions (`packet_queue_get_empty` followed by `packet_queue_insert(pkt, key_i)`)
with arbitrary keys, a drain by `packet_queue_get_next` while `packet_count > 0`
makes exactly `k` calls and returns `k` non-null packets; these are a permutation of
the `k` distinct packets that were inserted, which carry the keys in the order of
insertion; and the keys come out in non-decreasing order. -/
theorem admissions_drain_sorted (raw : Nat → sniffed_packet) (keys : List Nat)
    (hk : keys.length ≤ 16) :
    ∃ (pkts : List Nat) (s : State) (out : List Nat) (s1 : State),
      admitAll keys (initState raw) = some (pkts, s) ∧
      drain keys.length s = some (out.map some, s1) ∧
      s1.packet_count = 0 ∧
      out.length = keys.length ∧
      pkts.Nodup ∧ out.Perm pkts ∧
      pkts.map (fun p => (bufAt s.packet_buffers p).key) = keys ∧
      (out.map (fun p => (bufAt s.packet_buffers p).key)).Pairwise (fun a b => a ≤ b) := by
  obtain ⟨s, hall, h⟩ := admitAll_spec keys [] (initState raw) (admitted_init raw)
    (by simpa using hk)
  simp only [List.nil_append, List.length_nil] at hall h
  obtain ⟨l, hq, hperm, hsorted⟩ := h.queue
  have hll : l.length = keys.length := by rw [hperm.length_eq, List.length_range]
  obtain ⟨s1, hdrain, hc, _⟩ := drain_spec l _ s hq
    (by rw [hq]; exact queueOf_length l (by omega)) (by rw [h.count, hll])
  rw [hll] at hdrain
  refine ⟨_, s, l, s1, hall, hdrain, hc, hll, List.nodup_range' _ _, ?_, ?_, ?_⟩
  · rw [← List.range_eq_range']; exact hperm
  · rw [← List.range_eq_range']; exact h.keys
  · rw [List.pairwise_map]; exact hsorted

/-- Five admissions with the keys 5, 3, 3, 9, 1, an instance of C1. -/
theorem admissions_drain_sorted_witness :
    [5, 3, 3, 9, 1].length ≤ 16 ∧
    ∃ (pkts : List Nat) (s : State) (out : List Nat) (s1 : State),
      admitAll [5, 3, 3, 9, 1] (initState (fun _ => default)) = some (pkts, s) ∧
      drain [5, 3, 3, 9, 1].length s = some (out.map some, s1) ∧
      s1.packet_count = 0 ∧
      out.length = [5, 3, 3, 9, 1].length ∧
      pkts.Nodup ∧ out.Perm pkts ∧
      pkts.map (fun p => (bufAt s.packet_buffers p).key) = [5, 3, 3, 9, 1] ∧
      (out.map (fun p => (bufAt s.packet_buffers p).key)).Pairwise (fun a b => a ≤ b) :=
  ⟨by decide, admissions_drain_sorted (fun _ => default) [5, 3, 3, 9, 1] (by decide)⟩

/-- In a list sorted by key, the entries left by dropping the leading entries with
a key `< key` all have a key `≥ key`. -/
theorem dropWhile_key_ge (g : Nat → Nat) (key : Nat) (l : List Nat)
    (h : l.Pairwise (fun a b => g a ≤ g b)) :
    ∀ a ∈ l.dropWhile (fun b => decide (g b < key)), key ≤ g a := by
  induction l with
  | nil => intro a ha; simp at ha
  | cons x l ih =>
    rw [List.pairwise_cons] at h
    by_cases hlt : g x < key
    · simp only [List.dropWhile_cons, hlt, decide_True, if_true]
      exact ih h.2
    · simp only [List.dropWhile_cons, hlt, decide_False, Bool.false_eq_true, if_false]
      intro a ha
      rcases List.mem_cons.mp ha with ha1 | ha1
      · rw [ha1]; omega
      · have := h.1 a ha1; omega

/-- C2, as stated, fails: two packets admitted with the same key 7, buffer 0 first
and buffer 1 second. `packet_queue_insert` places the second packet at the head,
before the first, and the drain returns buffer 1 before buffer 0. -/
theorem fifo_tie_break_counterexample :
    (admitAll [7, 7] (initState (fun _ => default))).map
        (fun r => (r.1, r.2.packet_queue.take 2)) = some ([0, 1], [some 1, some 0]) ∧
    ((admitAll [7, 7] (initState (fun _ => default))).bind
        (fun r => drain 2 r.2)).map (fun d => d.1) = some [some 1, some 0] := by
  decide

/-- C2, amended: in a queue state that holds the buffers `l` sorted by key (fewer
than 16), `packet_queue_insert(b, key)` for a buffer `b` not in the queue places `b`
behind the entries with a key `< key` and before every entry with a key `≥ key`, so
before all existing entries with that same key; the keys of the queued entries are
unchanged, and a drain by `packet_queue_get_next` returns the entries in that order:
a packet inserted later comes out before the earlier packets of equal key. -/
theorem insert_before_equal_keys (s : State) (l : List Nat) (b key : Nat)
    (hq : s.packet_queue = queueOf l) (hl : l.length < 16)
    (hc : s.packet_count = l.length) (hb : b < s.packet_buffers.length) (hbl : b ∉ l)
    (hsorted : l.Pairwise
      (fun x y => (bufAt s.packet_buffers x).key ≤ (bufAt s.packet_buffers y).key)) :
    ∃ (l1 l2 : List Nat) (s1 s2 : State),
      l = l1 ++ l2 ∧
      (∀ a ∈ l1, (bufAt s.packet_buffers a).key < key) ∧
      (∀ a ∈ l2, key ≤ (bufAt s.packet_buffers a).key) ∧
      packet_queue_insert b key s = some s1 ∧
      s1.packet_queue = queueOf (l1 ++ b :: l2) ∧
      (bufAt s1.packet_buffers b).key = key ∧
      (∀ a ∈ l, (bufAt s1.packet_buffers a).key = (bufAt s.packet_buffers a).key) ∧
      drain (l.length + 1) s1 = some ((l1 ++ b :: l2).map some, s2) := by
  obtain ⟨s1, hins, hq1, hc1, _, hkey1, _, hold1⟩ :=
    packet_queue_insert_fields s l b key hq hl hb
  have hsplit := List.takeWhile_append_dropWhile
    (fun x => decide ((bufAt s.packet_buffers x).key < key)) l
  have hlen : (l.takeWhile (fun x => decide ((bufAt s.packet_buffers x).key < key)) ++
      b :: l.dropWhile (fun x => decide ((bufAt s.packet_buffers x).key < key))).length
        = l.length + 1 := by
    have := congrArg List.length hsplit
    simp only [List.length_append, List.length_cons] at this ⊢
    omega
  obtain ⟨s2, hdrain, _, _⟩ := drain_spec _ _ s1 hq1
    (by rw [hq1]; exact queueOf_length _ (by rw [hlen]; omega))
    (by rw [hc1, hc, hlen]; omega)
  rw [hlen] at hdrain
  refine ⟨_, _, s1, s2, hsplit.symm, ?_, ?_, hins, hq1, hkey1, ?_, hdrain⟩
  · intro a ha
    simpa using List.mem_takeWhile_imp ha
  · exact dropWhile_key_ge (fun x => (bufAt s.packet_buffers x).key) key l hsorted
  · intro a ha
    rw [hold1 a (fun h => hbl (h ▸ ha))]

/-- An instance of the amended C2: buffer 1 inserted with key 7 into the queue that
holds buffer 0 with key 7. -/
theorem insert_before_equal_keys_witness :
    ∃ (l1 l2 : List Nat) (s1 s2 : State),
      [0] = l1 ++ l2 ∧
      (∀ a ∈ l1, (bufAt oneQueuedState.packet_buffers a).key < 7) ∧
      (∀ a ∈ l2, 7 ≤ (bufAt oneQueuedState.packet_buffers a).key) ∧
      packet_queue_insert 1 7 oneQueuedState = some s1 ∧
      s1.packet_queue = queueOf (l1 ++ 1 :: l2) ∧
      (bufAt s1.packet_buffers 1).key = 7 ∧
      (∀ a ∈ [0], (bufAt s1.packet_buffers a).key = (bufAt oneQueuedState.packet_buffers a).key) ∧
      drain ([0].length + 1) s1 = some ((l1 ++ 1 :: l2).map some, s2) :=
  insert_before_equal_keys oneQueuedState [0] 1 7 (by decide) (by decide) (by decide)
    (by decide) (by decide) (by simp)

/-! ## Claims about the pool -/

/-- Calling `packet_queue_get_empty` either returns the first buffer whose `free` flag is
set and clears that flag, or finds all 16 buffers non-free, returns null and changes
nothing. -/
theorem packet_queue_get_empty_cases (s : State) :
    (∃ j, j < 16 ∧ (bufAt s.packet_buffers j).free ≠ 0 ∧
        (∀ k, k < j → (bufAt s.packet_buffers k).free = 0) ∧
        packet_queue_get_empty s = (some j, { s with
          packet_buffers :=
            s.packet_buffers.set j { bufAt s.packet_buffers j with free := 0 } })) ∨
    ((∀ k, k < 16 → (bufAt s.packet_buffers k).free = 0) ∧
        packet_queue_get_empty s = (none, s)) := by
  unfold packet_queue_get_empty
  rcases getEmptyLoop_spec s.packet_buffers 16 0 with ⟨j, _, h2, h3, h4, h5⟩ | ⟨h1, h2⟩
  · refine Or.inl ⟨j, by omega, h3, fun k hk => h4 k (Nat.zero_le _) hk, ?_⟩
    simp only [SNIFFED_PACKETED_BUFFER_SIZE, h5]
  · refine Or.inr ⟨fun k hk => h1 k (Nat.zero_le _) (by omega), ?_⟩
    simp only [SNIFFED_PACKETED_BUFFER_SIZE, h2]

theorem poolInv_init (raw : Nat → sniffed_packet) : PoolInv (initState raw) where
  bufs_len := (admitted_init raw).bufs_len
  flags := fun i hi => Or.inr ((admitted_init raw).unused i (Nat.zero_le _) hi)

theorem poolInv_step (op : PoolOp) (s : State) (h : PoolInv s) : PoolInv (poolStep op s) := by
  cases op with
  | allocate =>
    rcases packet_queue_get_empty_cases s with ⟨j, hj, _, _, h5⟩ | ⟨_, h2⟩
    · simp only [poolStep, h5]
      constructor
      · simp only [List.length_set]; exact h.bufs_len
      · intro i hi
        by_cases hij : j = i
        · subst hij
          simp only
          rw [bufAt_set_eq _ _ _ (by rw [h.bufs_len]; exact hj)]
          exact Or.inl rfl
        · simp only
          rw [bufAt_set_ne _ _ _ _ hij]
          exact h.flags i hi
    · simp only [poolStep, h2]; exact h
  | release pkt =>
    simp only [poolStep, packet_buffer_free]
    constructor
    · simp only [List.length_set]; exact h.bufs_len
    · intro i hi
      by_cases hij : pkt.val = i
      · rw [← hij]
        simp only
        rw [bufAt_set_eq _ _ _ (by rw [h.bufs_len]; exact pkt.isLt)]
        exact Or.inr rfl
      · simp only
        rw [bufAt_set_ne _ _ _ _ hij]
        exact h.flags i hi

theorem poolInv_run : ∀ (ops : List PoolOp) (s : State), PoolInv s → PoolInv (poolRun ops s) := by
  intro ops
  induction ops with
  | nil => intro s h; exact h
  | cons op ops ih => intro s h; exact ih _ (poolInv_step op s h)

/-- With 16 buffers, all are occupied exactly when the count of occupied buffers
is 16. -/
theorem occupied_eq_16_iff (s : State) (hlen : s.packet_buffers.length = 16) :
    occupied s = 16 ↔ ∀ i, i < 16 → (bufAt s.packet_buffers i).free = 0 := by
  unfold occupied
  rw [← hlen, List.countP_eq_length]
  constructor
  · intro h i hi
    have hmem : bufAt s.packet_buffers i ∈ s.packet_buffers := by
      unfold bufAt
      rw [List.getD_eq_getElem?_getD, List.getElem?_eq_getElem hi]
      exact List.getElem_mem hi
    simpa using h _ hmem
  · intro h p hp
    obtain ⟨i, hi, rfl⟩ := List.getElem_of_mem hp
    have := h i hi
    unfold bufAt at this
    rw [List.getD_eq_getElem?_getD, List.getElem?_eq_getElem hi] at this
    simpa using this

/-- After `n` allocations in a row from a pool whose first `j` buffers are occupied
and whose other buffers are free, the first `j + n` buffers are occupied and the
others are free. -/
theorem allocate_run (n : Nat) : ∀ (j : Nat) (s : State), j + n ≤ 16 →
    s.packet_buffers.length = 16 →
    (∀ i, i < j → (bufAt s.packet_buffers i).free = 0) →
    (∀ i, j ≤ i → i < 16 → (bufAt s.packet_buffers i).free = 1) →
    (∀ i, i < j + n →
      (bufAt (poolRun (List.replicate n PoolOp.allocate) s).packet_buffers i).free = 0) ∧
    (∀ i, j + n ≤ i → i < 16 →
      (bufAt (poolRun (List.replicate n PoolOp.allocate) s).packet_buffers i).free = 1) := by
  induction n with
  | zero => intro j s _ _ h1 h2; exact ⟨h1, h2⟩
  | succ n ih =>
    intro j s hj hlen h1 h2
    have hfree : (bufAt s.packet_buffers j).free ≠ 0 := by
      rw [h2 j (Nat.le_refl _) (by omega)]; decide
    obtain ⟨s1, hge, _, _, hlen1, hfree1, hold1⟩ :=
      packet_queue_get_empty_first_fields s j (by omega) (by omega) h1 hfree
    have hstep : poolRun (List.replicate (n + 1) PoolOp.allocate) s
        = poolRun (List.replicate n PoolOp.allocate) s1 := by
      rw [List.replicate_succ, poolRun, poolStep, hge]
    rw [hstep]
    have := ih (j + 1) s1 (by omega) (by rw [hlen1]; exact hlen)
      (by
        intro i hi
        by_cases hij : i = j
        · rw [hij]; exact hfree1
        · rw [hold1 i hij]; exact h1 i (by omega))
      (by
        intro i hi h16
        rw [hold1 i (by omega)]
        exact h2 i (by omega) h16)
    have e : j + 1 + n = j + (n + 1) := by omega
    rw [e] at this
    exact this

/-- C3: in every state reached from `packet_buffer_init` by a sequence of
`packet_queue_get_empty` and `packet_buffer_free` calls, at most 16 buffers are
occupied; a `packet_queue_get_empty` that returns a buffer returns one of the 16
buffers whose `free` flag was 1, sets that flag to 0 and leaves every other buffer
and every other variable unchanged; it returns null exactly when all 16 buffers are
occupied, and then changes nothing; and after 16 allocations in a row from the
initial state it returns null. -/
theorem pool_allocate_release (raw : Nat → sniffed_packet) (ops : List PoolOp) :
    occupied (poolRun ops (initState raw)) ≤ 16 ∧
    (∀ k, (packet_queue_get_empty (poolRun ops (initState raw))).1 = some k →
      k < 16 ∧
      (bufAt (poolRun ops (initState raw)).packet_buffers k).free = 1 ∧
      (packet_queue_get_empty (poolRun ops (initState raw))).2 =
        { poolRun ops (initState raw) with
          packet_buffers := (poolRun ops (initState raw)).packet_buffers.set k
            { bufAt (poolRun ops (initState raw)).packet_buffers k with free := 0 } } ∧
      (bufAt (packet_queue_get_empty (poolRun ops (initState raw))).2.packet_buffers k).free
        = 0 ∧
      (∀ i, i ≠ k →
        bufAt (packet_queue_get_empty (poolRun ops (initState raw))).2.packet_buffers i
          = bufAt (poolRun ops (initState raw)).packet_buffers i)) ∧
    ((packet_queue_get_empty (poolRun ops (initState raw))).1 = none ↔
      occupied (poolRun ops (initState raw)) = 16) ∧
    ((packet_queue_get_empty (poolRun ops (initState raw))).1 = none →
      (packet_queue_get_empty (poolRun ops (initState raw))).2 = poolRun ops (initState raw)) ∧
    (packet_queue_get_empty
      (poolRun (List.replicate 16 PoolOp.allocate) (initState raw))).1 = none := by
  have hinv := poolInv_run ops (initState raw) (poolInv_init raw)
  generalize poolRun ops (initState raw) = s at hinv ⊢
  refine ⟨?_, ?_, ?_, ?_, ?_⟩
  · unfold occupied
    rw [← hinv.bufs_len]
    exact List.countP_le_length _
  · intro k hk
    rcases packet_queue_get_empty_cases s with ⟨j, hj, h3, _, h5⟩ | ⟨_, h2⟩
    · rw [h5] at hk ⊢
      have hjk : j = k := by simpa using hk
      subst hjk
      refine ⟨hj, ?_, rfl, ?_, ?_⟩
      · rcases hinv.flags j hj with h0 | h1
        · exact absurd h0 h3
        · exact h1
      · simp only
        rw [bufAt_set_eq _ _ _ (by rw [hinv.bufs_len]; exact hj)]
      · intro i hi
        exact bufAt_set_ne _ _ _ _ (Ne.symm hi)
    · rw [h2] at hk
      simp at hk
  · rw [occupied_eq_16_iff s hinv.bufs_len]
    rcases packet_queue_get_empty_cases s with ⟨j, hj, h3, _, h5⟩ | ⟨h1, h2⟩
    · rw [h5]
      constructor
      · intro h; simp at h
      · intro h; exact absurd (h j hj) h3
    · rw [h2]
      exact ⟨fun _ => h1, fun _ => rfl⟩
  · intro hnone
    rcases packet_queue_get_empty_cases s with ⟨j, _, _, _, h5⟩ | ⟨_, h2⟩
    · rw [h5] at hnone; simp at hnone
    · rw [h2]
  · have hrun := allocate_run 16 0 (initState raw) (by omega) (poolInv_init raw).bufs_len
      (fun i hi => absurd hi (by omega))
      (fun i _ hi => (admitted_init raw).unused i (Nat.zero_le _) hi)
    rcases packet_queue_get_empty_cases
        (poolRun (List.replicate 16 PoolOp.allocate) (initState raw)) with
      ⟨j, hj, h3, _, _⟩ | ⟨_, h2⟩
    · exact absurd (hrun.1 j (by omega)) h3
    · rw [h2]

/-! ## `packet_queue_get_next` -/

/-- Calling `packet_queue_get_next` on a queue that holds the buffers `a :: l`, at most 15:
`a` is returned, the queue holds `l` from the head on and null elsewhere, and
`packet_count` is decremented. -/
theorem packet_queue_get_next_below_full (s : State) (a : Nat) (l : List Nat)
    (hq : s.packet_queue = queueOf (a :: l)) (hl : (a :: l).length ≤ 15) :
    packet_queue_get_next s = (some a, { s with
      packet_queue := queueOf l
      packet_count := (s.packet_count + 65535) % 65536 }) := by
  have hlen : s.packet_queue.length = 16 := by
    rw [hq]; exact queueOf_length _ (by omega)
  rw [packet_queue_get_next_cons s a (l.map some ++ List.replicate (16 - (l.length + 1)) none)
    (by rw [hq]; simp [queueOf, SNIFFED_PACKETED_BUFFER_SIZE]) hlen]
  have h15 : queueAt s.packet_queue 15 = none := by
    rw [hq]
    simp only [List.length_cons] at hl
    simp only [queueAt, queueOf, SNIFFED_PACKETED_BUFFER_SIZE, List.getD_eq_getElem?_getD]
    rw [List.getElem?_append_right (by simp; omega)]
    simp
  rw [h15]
  have e : 16 - l.length = (16 - (l.length + 1)) + 1 := by
    simp only [List.length_cons] at hl; omega
  simp only [queueOf, SNIFFED_PACKETED_BUFFER_SIZE]
  rw [e, List.replicate_succ', List.append_assoc]

/-- C4 at the full queue (16 admissions with the keys 0 .. 15, `packet_count = 16`):
`packet_queue_get_next` returns the head and sets `packet_count = 15`, but position
15 still holds the pointer to buffer 15, which is now also at position 14. After the
queue has been drained to `packet_count = 0` every position holds that pointer, and a
further `packet_queue_get_next` returns it from the empty queue and wraps
`packet_count` to 65535. -/
theorem get_next_full_queue_stale_tail :
    (admitAll (List.range 16) (initState (fun _ => default))).map
        (fun r => ((packet_queue_get_next r.2).1, (packet_queue_get_next r.2).2.packet_count,
          (packet_queue_get_next r.2).2.packet_queue))
      = some (some 0, 15,
          [some 1, some 2, some 3, some 4, some 5, some 6, some 7, some 8, some 9, some 10,
           some 11, some 12, some 13, some 14, some 15, some 15]) ∧
    ((admitAll (List.range 16) (initState (fun _ => default))).bind
        (fun r => drain 16 r.2)).map
        (fun d => (d.2.packet_count, queueAt d.2.packet_queue 0,
          (packet_queue_get_next d.2).1, (packet_queue_get_next d.2).2.packet_count))
      = some (0, some 15, some 15, 65535) := by
  decide

/-! ## Forwarding -/

/-- The first `11 + len` bytes from `&pkt->bt_addr` on are the 11-byte header
followed by the first `len` bytes of `data`. -/
theorem packet_content_take (pkt : sniffed_packet) (haddr : pkt.bt_addr.length = 6) :
    (packet_content pkt).take (11 + pkt.len)
      = pkt.bt_addr ++ le32 pkt.timestamp ++ [pkt.len] ++ pkt.data.take pkt.len := by
  have h11 : (pkt.bt_addr ++ le32 pkt.timestamp ++ [pkt.len]).length = 11 := by
    simp [le32, haddr]
  unfold packet_content
  rw [← h11, List.take_append]

theorem frame_length (pkt : sniffed_packet) (haddr : pkt.bt_addr.length = 6)
    (hdata : pkt.data.length = 255) (hlen : pkt.len < 256) :
    (pkt.bt_addr ++ le32 pkt.timestamp ++ [pkt.len] ++ pkt.data.take pkt.len).length
      = 11 + pkt.len := by
  simp [le32, haddr, hdata]
  omega

theorem memcpy_take (dst src : List Nat) (n : Nat) (h : (src.take n).length = n) :
    (memcpy dst src n).take n = src.take n := by
  unfold memcpy
  rw [List.take_left' h]

/-- C5: `sendSniffedPacket` for a packet with `len < 256`, a 6-byte address and 255
data bytes, with framed size `11 + len`. Above 100 the packet is only logged and
nothing is sent or changed. Otherwise, as sink, exactly the `11 + len` bytes of
header and payload are copied to the link buffer and sent on the host link, and
`lastPacketSendToHost` becomes the current time; otherwise, with a sink known, the
same bytes are sent by mhop unicast to `snif_sink` and nothing changes; otherwise
nothing is sent and nothing changes. -/
theorem sendSniffedPacket_decides (now : Nat) (pkt : sniffed_packet) (s : State)
    (hlen : pkt.len < 256) (haddr : pkt.bt_addr.length = 6) (hdata : pkt.data.length = 255) :
    (100 < 11 + pkt.len →
      sendSniffedPacket now pkt s
        = (s, [Event.printf (Msg.discarding_packet (11 + pkt.len))])) ∧
    (11 + pkt.len ≤ 100 → s.snif_am_sink ≠ 0 →
      sendSniffedPacket now pkt s
        = ({ s with
              l2cap_payload :=
                (pkt.bt_addr ++ le32 pkt.timestamp ++ [pkt.len] ++ pkt.data.take pkt.len) ++
                  s.l2cap_payload.drop (11 + pkt.len)
              lastPacketSendToHost := now },
            [Event.bt_l2cap_send s.l2cap_channel_id
              (pkt.bt_addr ++ le32 pkt.timestamp ++ [pkt.len] ++ pkt.data.take pkt.len)
              (11 + pkt.len)])) ∧
    (11 + pkt.len ≤ 100 → s.snif_am_sink = 0 → s.snif_have_sink ≠ 0 →
      sendSniffedPacket now pkt s
        = (s, [Event.bt_time_sync_send_mhop_pkt pkt.timestamp
            (pkt.bt_addr ++ le32 pkt.timestamp ++ [pkt.len] ++ pkt.data.take pkt.len)
            (11 + pkt.len) s.snif_sink SNIF_PACKET_PSM
            MhopMode.MHOP_CL_UNICAST MhopTtl.MHOP_CL_TTL_INFINITE])) ∧
    (11 + pkt.len ≤ 100 → s.snif_am_sink = 0 → s.snif_have_sink = 0 →
      sendSniffedPacket now pkt s = (s, [])) ∧
    (pkt.bt_addr ++ le32 pkt.timestamp ++ [pkt.len] ++ pkt.data.take pkt.len).length
      = 11 + pkt.len := by
  have hsz : (SNIFFED_PACKET_HEADER_LEN + pkt.len) % 65536 = 11 + pkt.len := by
    unfold SNIFFED_PACKET_HEADER_LEN; omega
  have hframe := packet_content_take pkt haddr
  have hflen := frame_length pkt haddr hdata hlen
  refine ⟨?_, ?_, ?_, ?_, hflen⟩
  · intro h
    unfold sendSniffedPacket
    simp only [hsz, MAX_PAYLOAD_SIZE]
    rw [if_pos (by omega)]
  · intro h hsink
    unfold sendSniffedPacket
    simp only [hsz, MAX_PAYLOAD_SIZE]
    rw [if_neg (by omega), if_pos hsink]
    have hm := memcpy_take s.l2cap_payload (packet_content pkt) (11 + pkt.len)
      (by rw [hframe]; exact hflen)
    rw [hm]
    unfold memcpy
    rw [hframe]
  · intro h hsink hhave
    unfold sendSniffedPacket
    simp only [hsz, MAX_PAYLOAD_SIZE]
    rw [if_neg (by omega), if_neg (by simp [hsink]), if_pos hhave, hframe]
  · intro h hsink hhave
    unfold sendSniffedPacket
    simp only [hsz, MAX_PAYLOAD_SIZE]
    rw [if_neg (by omega), if_neg (by simp [hsink]), if_neg (by simp [hhave])]

/-- An instance of C5 at the boundary: as sink, the packet with `len = 89` (framed
size 100) is sent on the host link, the packet with `len = 90` (framed size 101) is
only logged. -/
theorem sendSniffedPacket_decides_witness :
    (samplePacket 89).len < 256 ∧ (samplePacket 89).bt_addr.length = 6 ∧
    (samplePacket 89).data.length = 255 ∧
    sendSniffedPacket 5 (samplePacket 89) sinkState
      = ({ sinkState with
            l2cap_payload :=
              ((samplePacket 89).bt_addr ++ le32 (samplePacket 89).timestamp ++
                [(samplePacket 89).len] ++ (samplePacket 89).data.take (samplePacket 89).len) ++
                sinkState.l2cap_payload.drop (11 + (samplePacket 89).len)
            lastPacketSendToHost := 5 },
          [Event.bt_l2cap_send sinkState.l2cap_channel_id
            ((samplePacket 89).bt_addr ++ le32 (samplePacket 89).timestamp ++
              [(samplePacket 89).len] ++ (samplePacket 89).data.take (samplePacket 89).len)
            (11 + (samplePacket 89).len)]) ∧
    sendSniffedPacket 5 (samplePacket 90) sinkState
      = (sinkState, [Event.printf (Msg.discarding_packet (11 + (samplePacket 90).len))]) :=
  ⟨by decide, by decide, List.length_replicate 255 170,
    (sendSniffedPacket_decides 5 (samplePacket 89) sinkState (by decide) (by decide)
      (List.length_replicate 255 170)).2.1 (by decide) (by decide),
    (sendSniffedPacket_decides 5 (samplePacket 90) sinkState (by decide) (by decide)
      (List.length_replicate 255 170)).1 (by decide)⟩

/-! ## Sink state -/

theorem memcpy_addr (old src : List Nat) (hsrc : src.length = 6) (hold : old.length = 6) :
    memcpy old src 6 = src := by
  unfold memcpy
  rw [List.take_of_length_le (by omega), List.drop_of_length_le (by omega), List.append_nil]

/-- C6: in a state with `snif_have_sink = 0`, `cl_config` for a message from the peer
`P` sets `snif_have_sink = 1` and `snif_sink = P` and calls `con_mgr_inq_disable`
exactly once. In a state with `snif_have_sink = 1`, and so in the state after the
first message, `cl_config` for a message from `Q` sets `snif_sink = Q`, keeps
`snif_have_sink = 1` and does not call `con_mgr_inq_disable`; over the two messages
it is called exactly once. -/
theorem cl_config_transition (n : Nat) (P Q d1 d2 : List Nat) (s t : State)
    (hP : P.length = 6) (hQ : Q.length = 6)
    (hs : s.snif_sink.length = 6) (ht : t.snif_sink.length = 6)
    (h0 : s.snif_have_sink = 0) (h1 : t.snif_have_sink = 1) :
    ((cl_config n P d1 s).1.snif_have_sink = 1 ∧
      (cl_config n P d1 s).1.snif_sink = P ∧
      (cl_config n P d1 s).2.count Event.con_mgr_inq_disable = 1) ∧
    ((cl_config n Q d2 t).1.snif_have_sink = 1 ∧
      (cl_config n Q d2 t).1.snif_sink = Q ∧
      (cl_config n Q d2 t).2.count Event.con_mgr_inq_disable = 0) ∧
    ((cl_config n Q d2 (cl_config n P d1 s).1).1.snif_have_sink = 1 ∧
      (cl_config n Q d2 (cl_config n P d1 s).1).1.snif_sink = Q ∧
      ((cl_config n P d1 s).2 ++ (cl_config n Q d2 (cl_config n P d1 s).1).2).count
        Event.con_mgr_inq_disable = 1) := by
  have first : cl_config n P d1 s = ({ s with
      snif_config := memcpy s.snif_config d1 n
      snif_set_config := 1
      snif_sink := P
      snif_have_sink := 1 },
      [Event.con_mgr_inq_disable, Event.NutEventPost_snif_event_queue]) := by
    unfold cl_config
    simp only [h0, if_true, memcpy_addr _ _ hP hs]
  have later : ∀ u : State, u.snif_sink.length = 6 → u.snif_have_sink = 1 →
      cl_config n Q d2 u = ({ u with
        snif_config := memcpy u.snif_config d2 n
        snif_set_config := 1
        snif_sink := Q }, [Event.NutEventPost_snif_event_queue]) := by
    intro u hu hu1
    unfold cl_config
    simp only [hu1, memcpy_addr _ _ hQ hu]
    rw [if_neg (by decide)]
  refine ⟨?_, ?_, ?_⟩
  · rw [first]
    exact ⟨rfl, rfl, rfl⟩
  · rw [later t ht h1]
    exact ⟨h1, rfl, rfl⟩
  · rw [later _ (by rw [first]; exact hP) (by rw [first]), first]
    exact ⟨rfl, rfl, rfl⟩

/-- An instance of C6: from the initial state, a configuration message from
`1..6` and then one from `7..12`; and one from `7..12` in a state that has a sink. -/
theorem cl_config_transition_witness :
    ((cl_config 4 [1, 2, 3, 4, 5, 6] [9, 9, 9, 9] (initState (fun _ => default))).1.snif_have_sink
        = 1 ∧
      (cl_config 4 [1, 2, 3, 4, 5, 6] [9, 9, 9, 9] (initState (fun _ => default))).1.snif_sink
        = [1, 2, 3, 4, 5, 6] ∧
      (cl_config 4 [1, 2, 3, 4, 5, 6] [9, 9, 9, 9] (initState (fun _ => default))).2.count
        Event.con_mgr_inq_disable = 1) ∧
    ((cl_config 4 [7, 8, 9, 10, 11, 12] [8, 8, 8, 8]
        { initState (fun _ => default) with snif_have_sink := 1 }).1.snif_have_sink = 1 ∧
      (cl_config 4 [7, 8, 9, 10, 11, 12] [8, 8, 8, 8]
        { initState (fun _ => default) with snif_have_sink := 1 }).1.snif_sink
        = [7, 8, 9, 10, 11, 12] ∧
      (cl_config 4 [7, 8, 9, 10, 11, 12] [8, 8, 8, 8]
        { initState (fun _ => default) with snif_have_sink := 1 }).2.count
        Event.con_mgr_inq_disable = 0) ∧
    ((cl_config 4 [7, 8, 9, 10, 11, 12] [8, 8, 8, 8]
        (cl_config 4 [1, 2, 3, 4, 5, 6] [9, 9, 9, 9]
          (initState (fun _ => default))).1).1.snif_have_sink = 1 ∧
      (cl_config 4 [7, 8, 9, 10, 11, 12] [8, 8, 8, 8]
        (cl_config 4 [1, 2, 3, 4, 5, 6] [9, 9, 9, 9]
          (initState (fun _ => default))).1).1.snif_sink = [7, 8, 9, 10, 11, 12] ∧
      ((cl_config 4 [1, 2, 3, 4, 5, 6] [9, 9, 9, 9] (initState (fun _ => default))).2 ++
        (cl_config 4 [7, 8, 9, 10, 11, 12] [8, 8, 8, 8]
          (cl_config 4 [1, 2, 3, 4, 5, 6] [9, 9, 9, 9]
            (initState (fun _ => default))).1).2).count
        Event.con_mgr_inq_disable = 1) :=
  cl_config_transition 4 [1, 2, 3, 4, 5, 6] [7, 8, 9, 10, 11, 12] [9, 9, 9, 9] [8, 8, 8, 8]
    (initState (fun _ => default)) { initState (fun _ => default) with snif_have_sink := 1 }
    (by decide) (by decide) (by decide) (by decide) (by decide) (by decide)

/-- C7: in a state with `snif_have_sink = 1` and `snif_am_sink = 0`, the networking
check of the worker with zero reliable connections sets `snif_have_sink = 0` and
calls `con_mgr_inq_enable` once; a second check with zero connections changes
nothing and calls nothing; a check that sees at least one reliable connection
changes nothing; and in any state with `snif_am_sink = 1` the check changes
nothing. -/
theorem health_check_idempotent (s t : State) (h1 : s.snif_have_sink = 1)
    (h2 : s.snif_am_sink = 0) (ht : t.snif_am_sink = 1) :
    workerHealthCheck 0 s = ({ s with snif_have_sink := 0 }, [Event.con_mgr_inq_enable]) ∧
    workerHealthCheck 0 (workerHealthCheck 0 s).1 = ((workerHealthCheck 0 s).1, []) ∧
    (∀ n, 0 < n → workerHealthCheck n s = (s, [])) ∧
    (∀ n, workerHealthCheck n t = (t, [])) := by
  have first : workerHealthCheck 0 s
      = ({ s with snif_have_sink := 0 }, [Event.con_mgr_inq_enable]) := by
    unfold workerHealthCheck
    rw [if_pos ⟨by rw [h1]; decide, h2⟩, if_pos rfl]
  refine ⟨first, ?_, ?_, ?_⟩
  · rw [first]
    unfold workerHealthCheck
    rw [if_neg (by simp)]
  · intro n hn
    unfold workerHealthCheck
    rw [if_pos ⟨by rw [h1]; decide, h2⟩, if_neg (by omega)]
  · intro n
    unfold workerHealthCheck
    rw [if_neg (by rw [ht]; simp)]

/-- An instance of C7: the initial state with a sink known, and the sink state. -/
theorem health_check_idempotent_witness :
    workerHealthCheck 0 { initState (fun _ => default) with snif_have_sink := 1 }
      = ({ ({ initState (fun _ => default) with snif_have_sink := 1 } : State) with
            snif_have_sink := 0 }, [Event.con_mgr_inq_enable]) ∧
    workerHealthCheck 0
        (workerHealthCheck 0 { initState (fun _ => default) with snif_have_sink := 1 }).1
      = ((workerHealthCheck 0 { initState (fun _ => default) with snif_have_sink := 1 }).1,
          []) ∧
    (∀ n, 0 < n →
      workerHealthCheck n { initState (fun _ => default) with snif_have_sink := 1 }
        = ({ initState (fun _ => default) with snif_have_sink := 1 }, [])) ∧
    (∀ n, workerHealthCheck n sinkState = (sinkState, [])) :=
  health_check_idempotent { initState (fun _ => default) with snif_have_sink := 1 } sinkState
    (by decide) (by decide) (by decide)

/-! ## Keep-alive -/

/-- Calling `sendTick` with a 6-byte local address: the frame sent is the 11-byte header
only, with the local address, the first clock value and the length byte 0;
`lastPacketSendToHost` becomes the second clock value. -/
theorem sendTick_frame (addr : List Nat) (t1 t2 : Nat) (s : State) (haddr : addr.length = 6) :
    sendTick addr t1 t2 s
      = ({ s with
            l2cap_payload := addr ++ le32 t1 ++ [0] ++ s.l2cap_payload.drop 11
            lastPacketSendToHost := t2 },
          [Event.bt_l2cap_send s.l2cap_channel_id (addr ++ le32 t1 ++ [0]) 11]) := by
  have e1 : memcpy s.l2cap_payload addr 6 = addr ++ s.l2cap_payload.drop 6 := by
    unfold memcpy
    rw [List.take_of_length_le (by omega)]
  have e2 : (addr ++ s.l2cap_payload.drop 6).take 6 = addr := List.take_left' haddr
  have e3 : (addr ++ s.l2cap_payload.drop 6).drop 10 = s.l2cap_payload.drop 10 := by
    rw [List.drop_append_eq_append_drop, List.drop_of_length_le (by omega), haddr,
      List.drop_drop]
    rfl
  have h10 : (addr ++ le32 t1).length = 10 := by simp [le32, haddr]
  have e4 : (addr ++ le32 t1 ++ s.l2cap_payload.drop 10).take 10 = addr ++ le32 t1 :=
    List.take_left' h10
  have e5 : (addr ++ le32 t1 ++ s.l2cap_payload.drop 10).drop 11 = s.l2cap_payload.drop 11 := by
    rw [List.drop_append_eq_append_drop, List.drop_of_length_le (by omega), h10,
      List.drop_drop]
    rfl
  have h11 : (addr ++ le32 t1 ++ [0]).length = 11 := by simp [le32, haddr]
  have e6 : (addr ++ le32 t1 ++ 0 :: s.l2cap_payload.drop 11).take 11 = addr ++ le32 t1 ++ [0] := by
    have : addr ++ le32 t1 ++ 0 :: s.l2cap_payload.drop 11
        = (addr ++ le32 t1 ++ [0]) ++ s.l2cap_payload.drop 11 := by simp
    rw [this, List.take_left' h11]
  unfold sendTick
  simp only [SNIFFED_PACKET_HEADER_LEN, e1, e2, e3, e4, e5, e6]
  simp

/-- The keep-alive step when `lastPacketSendToHost + 900` does not exceed the
`u_long` range: with `last ≤ now`, a tick is sent exactly when the node is sink and
`now - last > 900`. -/
theorem workerKeepAlive_no_wrap (addr : List Nat) (now t1 t2 : Nat) (s : State)
    (haddr : addr.length = 6) (hle : s.lastPacketSendToHost ≤ now)
    (hnw : s.lastPacketSendToHost + 900 < 4294967296) :
    (s.snif_am_sink ≠ 0 ∧ 900 < now - s.lastPacketSendToHost →
      workerKeepAlive addr now t1 t2 s
        = ({ s with
              l2cap_payload := addr ++ le32 t1 ++ [0] ++ s.l2cap_payload.drop 11
              lastPacketSendToHost := t2 },
            [Event.bt_l2cap_send s.l2cap_channel_id (addr ++ le32 t1 ++ [0]) 11])) ∧
    (¬ (s.snif_am_sink ≠ 0 ∧ 900 < now - s.lastPacketSendToHost) →
      workerKeepAlive addr now t1 t2 s = (s, [])) := by
  have hmod : (s.lastPacketSendToHost + 900) % 4294967296 = s.lastPacketSendToHost + 900 :=
    Nat.mod_eq_of_lt hnw
  constructor
  · intro h
    unfold workerKeepAlive
    rw [hmod, if_pos ⟨h.1, by omega⟩, sendTick_frame _ _ _ _ haddr]
  · intro h
    unfold workerKeepAlive
    rw [hmod, if_neg (fun hc => h ⟨hc.1, by omega⟩)]

/-- C8 at `last = 2^32 - 100`, `now = 2^32 - 50`: `now ≥ last` and only 50 time units
have elapsed, but `last + 900` wraps to 800, which is `< now`, and the worker sends a
tick. -/
theorem keep_alive_wrap_early_tick :
    wrapState.lastPacketSendToHost ≤ 4294967246 ∧
    4294967246 - wrapState.lastPacketSendToHost = 50 ∧
    (wrapState.lastPacketSendToHost + 900) % 4294967296 = 800 ∧
    (workerKeepAlive [1, 2, 3, 4, 5, 6] 4294967246 4294967246 4294967246 wrapState).2
      = [Event.bt_l2cap_send 0 ([1, 2, 3, 4, 5, 6] ++ le32 4294967246 ++ [0]) 11] ∧
    (workerKeepAlive [1, 2, 3, 4, 5, 6] 4294967246 4294967246 4294967246
      wrapState).1.lastPacketSendToHost = 4294967246 := by
  decide

/-! ## Pool-pressure warning -/

/-- One reserve pass with the warning flag 0 or 1: a failed pass leaves the flag at
1 and prints "packet queue full" only if the flag was 0; a successful pass leaves the
flag at 0 and prints "recovered" only if the flag was 1. -/
theorem snifferReserve_cases (s : State)
    (hw : s.packet_queue_warning = 0 ∨ s.packet_queue_warning = 1) :
    ((snifferReserve s).1 = none ∧ (snifferReserve s).2.1.packet_queue_warning = 1 ∧
      (snifferReserve s).2.2 =
        if s.packet_queue_warning = 0 then
          [Event.NutSleep 100, Event.printf Msg.packet_queue_full]
        else [Event.NutSleep 100]) ∨
    ((∃ k, (snifferReserve s).1 = some k) ∧ (snifferReserve s).2.1.packet_queue_warning = 0 ∧
      (snifferReserve s).2.2 =
        if s.packet_queue_warning = 0 then [] else [Event.printf Msg.packet_queue_recovered]) := by
  have hkeep : (packet_queue_get_empty s).2.packet_queue_warning = s.packet_queue_warning := rfl
  unfold snifferReserve
  rcases hge : packet_queue_get_empty s with ⟨_ | k, s1⟩
  · left
    rw [hge] at hkeep
    simp only at hkeep
    rcases hw with h0 | h1
    · simp [hkeep, h0]
    · simp [hkeep, h1]
  · right
    rw [hge] at hkeep
    simp only at hkeep
    rcases hw with h0 | h1
    · simp [hkeep, h0]
    · simp [hkeep, h1]

theorem poolStep_warning (op : PoolOp) (s : State) :
    (poolStep op s).packet_queue_warning = s.packet_queue_warning := by
  cases op <;> rfl

/-- The messages of reserve pass `j` of a run that starts with the warning flag 0 or
1, in terms of the results of this pass and the pass before. -/
theorem captureRun_log : ∀ (steps : List CaptureStep) (s : State),
    (s.packet_queue_warning = 0 ∨ s.packet_queue_warning = 1) →
    ∀ j, j < (captureRun steps s).length →
      (reserveLog (captureRun steps s) j).count (Event.printf Msg.packet_queue_full)
        = (if reserveFailed (captureRun steps s) j = true ∧
              (if j = 0 then s.packet_queue_warning = 0
               else reserveFailed (captureRun steps s) (j - 1) = false)
           then 1 else 0) ∧
      (reserveLog (captureRun steps s) j).count (Event.printf Msg.packet_queue_recovered)
        = (if reserveFailed (captureRun steps s) j = false ∧
              (if j = 0 then s.packet_queue_warning = 1
               else reserveFailed (captureRun steps s) (j - 1) = true)
           then 1 else 0) := by
  intro steps
  induction steps with
  | nil => intro s _ j hj; simp [captureRun] at hj
  | cons step steps ih =>
    intro s hw j hj
    cases step with
    | other op =>
      simp only [captureRun] at hj ⊢
      have := ih (poolStep op s) (by rw [poolStep_warning]; exact hw) j hj
      rw [poolStep_warning] at this
      exact this
    | reserve =>
      simp only [captureRun] at hj ⊢
      cases j with
      | zero =>
        simp only [reserveLog, reserveFailed, List.getD_cons_zero, if_true]
        rcases snifferReserve_cases s hw with ⟨h1, _, h3⟩ | ⟨⟨k, h1⟩, _, h3⟩
        · rw [h1, h3]
          rcases hw with h0 | h0 <;> simp [h0]
        · rw [h1, h3]
          rcases hw with h0 | h0 <;> simp [h0]
      | succ j =>
        have hj1 : j < (captureRun steps (snifferReserve s).2.1).length := by
          simpa using hj
        have hw1 : (snifferReserve s).2.1.packet_queue_warning = 0 ∨
            (snifferReserve s).2.1.packet_queue_warning = 1 := by
          rcases snifferReserve_cases s hw with ⟨_, h2, _⟩ | ⟨_, h2, _⟩
          · exact Or.inr h2
          · exact Or.inl h2
        have := ih (snifferReserve s).2.1 hw1 j hj1
        simp only [reserveLog, reserveFailed, List.getD_cons_succ, Nat.add_sub_cancel,
          Nat.add_one_ne_zero, if_false] at this ⊢
        rw [this.1, this.2]
        cases j with
        | zero =>
          simp only [if_true, List.getD_cons_zero]
          rcases snifferReserve_cases s hw with ⟨h1, h2, _⟩ | ⟨⟨k, h1⟩, h2, _⟩
          · rw [h1, h2]; simp
          · rw [h1, h2]; simp
        | succ j =>
          simp only [Nat.add_one_ne_zero, if_false, Nat.add_sub_cancel, List.getD_cons_succ]
          exact ⟨trivial, trivial⟩

/-- C9: in the reserve loop of the sniffer thread, started with
`packet_queue_warning = 0` and interleaved with any pool operations of the other
threads, reserve pass `j` prints "packet queue full" once if its
`packet_queue_get_empty` fails and the pass before did not fail (or there is none),
and not otherwise; it prints "packet queue recovered" once if its
`packet_queue_get_empty` succeeds and the pass before failed, and not otherwise. So
each maximal run of failed calls prints the warning once, on its first call; the
recovery is printed once, by the successful call that ends the run; and a pass that
succeeds after a pass that succeeded prints neither. -/
theorem pool_pressure_warning_edge (raw : Nat → sniffed_packet) (steps : List CaptureStep)
    (j : Nat) (hj : j < (captureRun steps (initState raw)).length) :
    (reserveLog (captureRun steps (initState raw)) j).count
        (Event.printf Msg.packet_queue_full)
      = (if reserveFailed (captureRun steps (initState raw)) j = true ∧
            (j = 0 ∨ reserveFailed (captureRun steps (initState raw)) (j - 1) = false)
         then 1 else 0) ∧
    (reserveLog (captureRun steps (initState raw)) j).count
        (Event.printf Msg.packet_queue_recovered)
      = (if reserveFailed (captureRun steps (initState raw)) j = false ∧ 0 < j ∧
            reserveFailed (captureRun steps (initState raw)) (j - 1) = true
         then 1 else 0) := by
  have h := captureRun_log steps (initState raw) (Or.inl rfl) j hj
  have hw : (initState raw).packet_queue_warning = 0 := rfl
  rw [h.1, h.2, hw]
  cases j with
  | zero => simp
  | succ j => simp

set_option maxRecDepth 8000 in
/-- An instance of C9 on `pressureSteps`: pass 16 is the first that fails and prints
the warning, pass 17 fails and prints nothing, pass 18 succeeds after the release and
prints the recovery. -/
theorem pool_pressure_warning_edge_witness :
    16 < (captureRun pressureSteps (initState (fun _ => default))).length ∧
    reserveLog (captureRun pressureSteps (initState (fun _ => default))) 16
      = [Event.NutSleep 100, Event.printf Msg.packet_queue_full] ∧
    reserveLog (captureRun pressureSteps (initState (fun _ => default))) 17
      = [Event.NutSleep 100] ∧
    reserveLog (captureRun pressureSteps (initState (fun _ => default))) 18
      = [Event.printf Msg.packet_queue_recovered] ∧
    ((reserveLog (captureRun pressureSteps (initState (fun _ => default))) 16).count
        (Event.printf Msg.packet_queue_full)
      = (if reserveFailed (captureRun pressureSteps (initState (fun _ => default))) 16 = true ∧
            (16 = 0 ∨
              reserveFailed (captureRun pressureSteps (initState (fun _ => default))) (16 - 1)
                = false)
         then 1 else 0) ∧
    (reserveLog (captureRun pressureSteps (initState (fun _ => default))) 16).count
        (Event.printf Msg.packet_queue_recovered)
      = (if reserveFailed (captureRun pressureSteps (initState (fun _ => default))) 16 = false ∧
            0 < 16 ∧
            reserveFailed (captureRun pressureSteps (initState (fun _ => default))) (16 - 1)
              = true
         then 1 else 0)) :=
  ⟨by decide, by decide, by decide, by decide,
    pool_pressure_warning_edge (fun _ => default) pressureSteps 16 (by decide)⟩

/-! ## The forwarding loop of the worker -/

theorem sendSniffedPacket_queue (now : Nat) (pkt : sniffed_packet) (s : State) :
    (sendSniffedPacket now pkt s).1.packet_queue = s.packet_queue ∧
    (sendSniffedPacket now pkt s).1.packet_buffers = s.packet_buffers ∧
    (sendSniffedPacket now pkt s).1.packet_count = s.packet_count := by
  unfold sendSniffedPacket
  simp only
  split_ifs <;> exact ⟨rfl, rfl, rfl⟩

/-- The forwarding loop on a queue whose first `packet_count` positions hold the
buffers `l`: it ends after `l.length` iterations with `packet_count = 0`, every
buffer of `l` is free afterwards, and no buffer that was free is in use afterwards. -/
theorem workerDrain_spec (clk : Nat → Nat) (l : List Nat) :
    ∀ (rest : List (Option Nat)) (s : State) (it fuel : Nat),
      s.packet_queue = l.map some ++ rest → s.packet_queue.length = 16 →
      s.packet_count = l.length → s.packet_buffers.length = 16 → (∀ p ∈ l, p < 16) →
      l.length ≤ fuel →
      ∃ s1 ev, workerDrain clk fuel it s = some (s1, ev, l.length) ∧
        s1.packet_count = 0 ∧ s1.packet_buffers.length = 16 ∧
        (∀ p ∈ l, (bufAt s1.packet_buffers p).free = 1) ∧
        (∀ p, (bufAt s.packet_buffers p).free = 1 → (bufAt s1.packet_buffers p).free = 1) := by
  induction l with
  | nil =>
    intro rest s it fuel _ _ hc hb _ _
    refine ⟨s, [], ?_, hc, hb, fun p hp => absurd hp (by simp), fun p hp => hp⟩
    cases fuel <;> simp [workerDrain, hc]
  | cons a l ih =>
    intro rest s it fuel hq hlen hc hb hmem hfuel
    obtain ⟨f, rfl⟩ : ∃ f, fuel = f + 1 := ⟨fuel - 1, by simp at hfuel; omega⟩
    have hl16 : l.length + 1 ≤ 16 := by
      have := congrArg List.length hq
      rw [hlen] at this
      simp at this
      omega
    obtain ⟨s1, hnext, hq1, hc1, hb1⟩ : ∃ s1, packet_queue_get_next s = (some a, s1) ∧
        s1.packet_queue = l.map some ++ (rest ++ [queueAt s.packet_queue 15]) ∧
        s1.packet_count = l.length ∧ s1.packet_buffers = s.packet_buffers := by
      refine ⟨_, packet_queue_get_next_cons s a (l.map some ++ rest) (by rw [hq]; simp) hlen,
        by simp, ?_, rfl⟩
      simp only
      rw [hc]
      simp only [List.length_cons]
      omega
    have hsend := sendSniffedPacket_queue (clk it) (bufAt s1.packet_buffers a) s1
    have ha16 : a < 16 := hmem a (List.mem_cons_self _ _)
    obtain ⟨s2, ev, hrun, hc2, hb2, hfree2, hkeep2⟩ := ih (rest ++ [queueAt s.packet_queue 15])
      (packet_buffer_free a (sendSniffedPacket (clk it) (bufAt s1.packet_buffers a) s1).1)
      (it + 1) f
      (by simp only [packet_buffer_free]; rw [hsend.1, hq1])
      (by
        simp only [packet_buffer_free]
        rw [hsend.1, hq1]
        have := congrArg List.length hq
        rw [hlen] at this
        simp at this ⊢
        omega)
      (by simp only [packet_buffer_free]; rw [hsend.2.2, hc1])
      (by simp only [packet_buffer_free, List.length_set]; rw [hsend.2.1, hb1, hb])
      (fun p hp => hmem p (List.mem_cons_of_mem _ hp))
      (by simp at hfuel; omega)
    have hafree : (bufAt (packet_buffer_free a
        (sendSniffedPacket (clk it) (bufAt s1.packet_buffers a) s1).1).packet_buffers a).free
          = 1 := by
      simp only [packet_buffer_free]
      rw [bufAt_set_eq _ _ _ (by rw [hsend.2.1, hb1, hb]; exact ha16)]
    refine ⟨s2, (sendSniffedPacket (clk it) (bufAt s1.packet_buffers a) s1).2 ++ ev,
      ?_, hc2, hb2, ?_, ?_⟩
    · have hpos : s.packet_count > 0 := by rw [hc]; simp
      rw [workerDrain, if_pos hpos, hnext]
      simp only
      rw [hrun]
      rfl
    · intro p hp
      rcases List.mem_cons.mp hp with hpa | hpl
      · rw [hpa]; exact hkeep2 a hafree
      · exact hfree2 p hpl
    · intro p hp
      apply hkeep2
      by_cases hpa : p = a
      · rw [hpa]; exact hafree
      · simp only [packet_buffer_free]
        rw [bufAt_set_ne _ _ _ _ (Ne.symm hpa), hsend.2.1, hb1]
        exact hp

/-- C10: from any state in which the first `n` positions of `packet_queue` hold
pointers to buffers (`n ≤ 16` as the array has 16 positions) and `packet_count = n`,
the forwarding loop of the worker (`packet_queue_get_next`, `sendSniffedPacket`,
`packet_buffer_free` while `packet_count > 0`) ends, given any bound of at least `n`
iterations, after exactly `n` iterations with `packet_count = 0`, and every buffer
that was queued has `free = 1` afterwards, whatever `sendSniffedPacket` did with
its packet. -/
theorem worker_drain_releases (clk : Nat → Nat) (s : State) (l : List Nat)
    (rest : List (Option Nat))
    (hq : s.packet_queue = l.map some ++ rest) (hlen : s.packet_queue.length = 16)
    (hc : s.packet_count = l.length) (hb : s.packet_buffers.length = 16)
    (hmem : ∀ p ∈ l, p < 16) :
    ∀ fuel, l.length ≤ fuel →
      ∃ s1 ev, workerDrain clk fuel 0 s = some (s1, ev, l.length) ∧
        s1.packet_count = 0 ∧
        (∀ p ∈ l, (bufAt s1.packet_buffers p).free = 1) := by
  intro fuel hfuel
  obtain ⟨s1, ev, h1, h2, _, h4, _⟩ :=
    workerDrain_spec clk l rest s 0 fuel hq hlen hc hb hmem hfuel
  exact ⟨s1, ev, h1, h2, h4⟩

/-- An instance of C10 on `twoQueuedState`: one oversized packet and one packet that
is sent. -/
theorem worker_drain_releases_witness :
    twoQueuedState.packet_queue = [0, 1].map some ++ List.replicate 14 none ∧
    twoQueuedState.packet_queue.length = 16 ∧
    twoQueuedState.packet_count = [0, 1].length ∧
    twoQueuedState.packet_buffers.length = 16 ∧
    (∀ p ∈ [0, 1], p < 16) ∧
    ∀ fuel, [0, 1].length ≤ fuel →
      ∃ s1 ev, workerDrain (fun it => 1000 + it) fuel 0 twoQueuedState
          = some (s1, ev, [0, 1].length) ∧
        s1.packet_count = 0 ∧
        (∀ p ∈ [0, 1], (bufAt s1.packet_buffers p).free = 1) :=
  ⟨by decide, by decide, by decide, by decide, by decide,
    worker_drain_releases (fun it => 1000 + it) twoQueuedState [0, 1]
      (List.replicate 14 none) (by decide) (by decide) (by decide) (by decide) (by decide)⟩

/-! ## Tick conversion -/

theorem ticks_split (t : Nat) : t >>> 10 = t / 1024 ∧ t &&& 0x3ff = t % 1024 := by
  constructor
  · rw [Nat.shiftRight_eq_div_pow]
  · exact Nat.and_pow_two_sub_one_eq_mod t 10

/-- For a 32-bit tick count no reduction modulo `2^32` takes effect in
`convertNutTicksToMillis`. -/
theorem convertNutTicksToMillis_eq (t : Nat) (ht : t < 4294967296) :
    convertNutTicksToMillis t = t / 1024 * 1000 + t % 1024 * 125 / 128 := by
  unfold convertNutTicksToMillis
  simp only [(ticks_split t).1, (ticks_split t).2]
  have h1 : t / 1024 * 1000 < 4294967296 := by omega
  have h2 : t % 1024 * 125 < 4294967296 := by omega
  rw [Nat.mod_eq_of_lt h1, Nat.mod_eq_of_lt h2]
  apply Nat.mod_eq_of_lt
  omega

/-- C12: for every 32-bit tick count `t1`, `convertNutTicksToMillis t1` is
`floor(t1 * 1000 / 1024)` over the naturals; the intermediate values
`seconds * 1000`, `(t1 & 0x3ff) * 125` and their sum stay below `2^32`; and the
function is non-decreasing on the 32-bit tick counts. -/
theorem convertNutTicksToMillis_exact (t1 t2 : Nat) (h12 : t1 ≤ t2) (ht : t2 < 4294967296) :
    convertNutTicksToMillis t1 = t1 * 1000 / 1024 ∧
    (t1 >>> 10) * 1000 < 4294967296 ∧
    (t1 &&& 0x3ff) * 125 < 4294967296 ∧
    (t1 >>> 10) * 1000 + (t1 &&& 0x3ff) * 125 / 128 < 4294967296 ∧
    convertNutTicksToMillis t1 ≤ convertNutTicksToMillis t2 := by
  have e1 := convertNutTicksToMillis_eq t1 (by omega)
  have e2 := convertNutTicksToMillis_eq t2 ht
  simp only [(ticks_split t1).1, (ticks_split t1).2]
  refine ⟨?_, by omega, by omega, by omega, ?_⟩
  · rw [e1]; omega
  · rw [e1, e2]; omega

/-- An instance of C12 at the largest tick counts, `2^32 - 2` and `2^32 - 1`. -/
theorem convertNutTicksToMillis_exact_witness :
    4294967294 ≤ 4294967295 ∧ 4294967295 < 4294967296 ∧
    convertNutTicksToMillis 4294967294 = 4294967294 * 1000 / 1024 ∧
    (4294967294 >>> 10) * 1000 < 4294967296 ∧
    (4294967294 &&& 0x3ff) * 125 < 4294967296 ∧
    (4294967294 >>> 10) * 1000 + (4294967294 &&& 0x3ff) * 125 / 128 < 4294967296 ∧
    convertNutTicksToMillis 4294967294 ≤ convertNutTicksToMillis 4294967295 :=
  ⟨by decide, by decide,
    convertNutTicksToMillis_exact 4294967294 4294967295 (by decide) (by decide)⟩

/-! ## Discovery and route knowledge -/

/-- One role event keeps `snif_have_sink` in `{0, 1}`, keeps inquiry disabled
whenever `snif_have_sink = 1`, and, unless it is a connection event of another type
than `BT_L2CAP_CONNECT`, keeps inquiry enabled whenever `snif_have_sink = 0`. -/
theorem roleStep_inv (n c : Nat) (ev : RoleEvent) (s : State) (inq : Bool)
    (h01 : s.snif_have_sink = 0 ∨ s.snif_have_sink = 1)
    (hdis : s.snif_have_sink = 1 → inq = false) :
    ((roleStep n c ev (s, inq)).1.snif_have_sink = 0 ∨
      (roleStep n c ev (s, inq)).1.snif_have_sink = 1) ∧
    ((roleStep n c ev (s, inq)).1.snif_have_sink = 1 → (roleStep n c ev (s, inq)).2 = false) ∧
    ((s.snif_have_sink = 0 → inq = true) →
      (∀ type ch, ev = RoleEvent.con_cb type ch → type = c) →
      (roleStep n c ev (s, inq)).1.snif_have_sink = 0 → (roleStep n c ev (s, inq)).2 = true) := by
  cases ev with
  | config source data =>
    rcases h01 with h0 | h1
    · simp [roleStep, cl_config, h0, inquiryAfter]
    · simp [roleStep, cl_config, h1, inquiryAfter, hdis h1]
  | con_cb type ch =>
    by_cases ht : type = c
    · simp only [roleStep, _snif_con_cb, ht, if_true, inquiryAfter]
      exact ⟨h01, hdis, fun hen _ h0 => hen h0⟩
    · refine ⟨?_, ?_, ?_⟩
      · simp [roleStep, _snif_con_cb, ht]
      · simp [roleStep, _snif_con_cb, ht]
      · intro _ hty _
        exact absurd (hty type ch rfl) ht
  | health_check nr =>
    rcases h01 with h0 | h1
    · have e : workerHealthCheck nr s = (s, []) := by
        unfold workerHealthCheck
        rw [if_neg (by simp [h0])]
      refine ⟨?_, ?_, ?_⟩
      · simp only [roleStep, e]; exact Or.inl h0
      · simp only [roleStep, e]
        intro h
        rw [h0] at h
        exact absurd h (by decide)
      · intro hen _ _
        simp only [roleStep, e, inquiryAfter]
        exact hen h0
    · by_cases ha : s.snif_am_sink = 0
      · by_cases hn : nr = 0
        · simp [roleStep, workerHealthCheck, h1, ha, hn, inquiryAfter]
        · simp [roleStep, workerHealthCheck, h1, ha, hn, inquiryAfter, hdis h1]
      · simp [roleStep, workerHealthCheck, h1, ha, inquiryAfter, hdis h1]

/-- Along every sequence of role events the three facts of `roleStep_inv` are
kept. -/
theorem roleRun_inv (n c : Nat) : ∀ (evs : List RoleEvent) (s : State) (inq : Bool),
    (s.snif_have_sink = 0 ∨ s.snif_have_sink = 1) →
    (s.snif_have_sink = 1 → inq = false) →
    ((roleRun n c evs (s, inq)).1.snif_have_sink = 0 ∨
      (roleRun n c evs (s, inq)).1.snif_have_sink = 1) ∧
    ((roleRun n c evs (s, inq)).1.snif_have_sink = 1 → (roleRun n c evs (s, inq)).2 = false) ∧
    ((s.snif_have_sink = 0 → inq = true) →
      (∀ type ch, RoleEvent.con_cb type ch ∈ evs → type = c) →
      (roleRun n c evs (s, inq)).1.snif_have_sink = 0 → (roleRun n c evs (s, inq)).2 = true) := by
  intro evs
  induction evs with
  | nil =>
    intro s inq h01 hdis
    exact ⟨h01, hdis, fun hen _ h0 => hen h0⟩
  | cons ev evs ih =>
    intro s inq h01 hdis
    have hs := roleStep_inv n c ev s inq h01 hdis
    have hr := ih (roleStep n c ev (s, inq)).1 (roleStep n c ev (s, inq)).2 hs.1 hs.2.1
    refine ⟨hr.1, hr.2.1, ?_⟩
    intro hen hty
    exact hr.2.2
      (hs.2.2 hen (fun type ch he => hty type ch (by rw [he]; exact List.mem_cons_self _ _)))
      (fun type ch hm => hty type ch (List.mem_cons_of_mem _ hm))

/-- In every state reached from the initial state with inquiry enabled,
`snif_have_sink = 1` implies that inquiry is disabled; and as long as no connection
event of another type than `BT_L2CAP_CONNECT` has occurred, inquiry is disabled
exactly when `snif_have_sink = 1`. -/
theorem inquiry_disabled_of_have_sink (n c : Nat) (raw : Nat → sniffed_packet)
    (evs : List RoleEvent) :
    ((roleRun n c evs (initState raw, true)).1.snif_have_sink = 1 →
      (roleRun n c evs (initState raw, true)).2 = false) ∧
    ((∀ type ch, RoleEvent.con_cb type ch ∈ evs → type = c) →
      ((roleRun n c evs (initState raw, true)).2 = false ↔
        (roleRun n c evs (initState raw, true)).1.snif_have_sink = 1)) := by
  have h := roleRun_inv n c evs (initState raw) true (Or.inl rfl)
    (fun h => absurd h (show (0 : Nat) ≠ 1 by decide))
  refine ⟨h.2.1, fun hty => ⟨?_, h.2.1⟩⟩
  intro hfalse
  rcases h.1 with h0 | h1
  · have := h.2.2 (fun _ => rfl) hty h0
    rw [hfalse] at this
    exact absurd this (by decide)
  · exact h1

/-- C13 on the events: a configuration message from the peer `1..6`, the host link
connects, the host link disconnects (an event type other than `BT_L2CAP_CONNECT`).
After the message `snif_have_sink = 1` and inquiry is disabled; after the disconnect
`snif_have_sink = 0` and `snif_am_sink = 0`, and inquiry is still disabled; and a
health check of the worker with zero reliable connections does not enable it. -/
theorem disconnect_leaves_inquiry_disabled (n c : Nat) :
    ((roleRun n c [RoleEvent.config [1, 2, 3, 4, 5, 6] []]
        (initState (fun _ => default), true)).1.snif_have_sink = 1 ∧
      (roleRun n c [RoleEvent.config [1, 2, 3, 4, 5, 6] []]
        (initState (fun _ => default), true)).2 = false) ∧
    ((roleRun n c [RoleEvent.config [1, 2, 3, 4, 5, 6] [], RoleEvent.con_cb c 64,
          RoleEvent.con_cb (c + 1) 64] (initState (fun _ => default), true)).1.snif_have_sink
        = 0 ∧
      (roleRun n c [RoleEvent.config [1, 2, 3, 4, 5, 6] [], RoleEvent.con_cb c 64,
          RoleEvent.con_cb (c + 1) 64] (initState (fun _ => default), true)).1.snif_am_sink
        = 0 ∧
      (roleRun n c [RoleEvent.config [1, 2, 3, 4, 5, 6] [], RoleEvent.con_cb c 64,
          RoleEvent.con_cb (c + 1) 64] (initState (fun _ => default), true)).2 = false) ∧
    (roleRun n c [RoleEvent.config [1, 2, 3, 4, 5, 6] [], RoleEvent.con_cb c 64,
        RoleEvent.con_cb (c + 1) 64, RoleEvent.health_check 0]
      (initState (fun _ => default), true)).2 = false := by
  simp [roleRun, roleStep, cl_config, _snif_con_cb, workerHealthCheck, inquiryAfter, initState,
    packet_buffer_init]

/-! ## Inserts after the queue has been full -/

set_option maxRecDepth 20000 in
/-- C11 after the queue has been full. Sixteen admissions fill the queue; one
`packet_queue_get_next` and the `packet_buffer_free` of the buffer it returned leave
one free buffer but no empty queue position, and positions 14 and 15 both point to
buffer 15. The next `packet_queue_get_empty` succeeds and the `packet_queue_insert`
that follows it, with a key above the queued keys, scans to index 16 and stores
outside the array. The same happens after the worker has forwarded all sixteen
packets. -/
theorem insert_after_full_queue_leaves_array :
    (usageRun (sixteenAdmissions ++ [UsageOp.get_next, UsageOp.free 0])
        (initUsage (fun _ => default))).map
        (fun u => (emptyPositions u.s, freeSlots u.s, queueAt u.s.packet_queue 14,
          queueAt u.s.packet_queue 15, u.s.packet_count))
      = some (0, 1, some 15, some 15, 15) ∧
    (usageRun (sixteenAdmissions ++ [UsageOp.get_next, UsageOp.free 0, UsageOp.get_empty])
        (initUsage (fun _ => default))).map
        (fun u => (u.reserved,
          insertScan u.s.packet_buffers u.s.packet_queue 16 16 0,
          packet_queue_insert 0 16 u.s))
      = some ([0], 16, none) ∧
    usageRun (sixteenAdmissions ++
        [UsageOp.get_next, UsageOp.free 0, UsageOp.get_empty, UsageOp.insert 0 16])
        (initUsage (fun _ => default)) = none ∧
    (usageRun (sixteenAdmissions ++ sixteenForwards) (initUsage (fun _ => default))).map
        (fun u => (emptyPositions u.s, freeSlots u.s, u.s.packet_count))
      = some (0, 16, 0) ∧
    usageRun (sixteenAdmissions ++ sixteenForwards ++ [UsageOp.get_empty, UsageOp.insert 0 16])
        (initUsage (fun _ => default)) = none := by
  refine ⟨by decide, by decide, by decide, by decide, by decide⟩

/-! ## The usage invariant below a full queue -/

/-- Pairwise distinct buffers below 16 are at most 16. -/
theorem nodup_length_le_16 (l : List Nat) (hn : l.Nodup) (hlt : ∀ p ∈ l, p < 16) :
    l.length ≤ 16 := by
  have := (List.subperm_of_subset hn (fun p hp => List.mem_range.mpr (hlt p hp))).length_le
  simpa using this

theorem usageInv_init (raw : Nat → sniffed_packet) : UsageInv (initUsage raw) where
  bufs_len := (admitted_init raw).bufs_len
  queue := by
    refine ⟨[], rfl, rfl, List.nodup_nil, ?_⟩
    intro p
    constructor
    · intro hp; simp [initUsage] at hp
    · intro hp
      have := (admitted_init raw).unused p (Nat.zero_le _) hp.1
      have h0 : (bufAt (initState raw).packet_buffers p).free = 0 := hp.2
      rw [this] at h0
      exact absurd h0 (by decide)

/-- Under the invariant the buffers in the queue and in the hands of the threads are
at most 16. -/
theorem usageInv_bound (u : Usage) (l : List Nat)
    (hn : (l ++ (u.reserved ++ u.returned)).Nodup)
    (hm : ∀ p, p ∈ l ++ (u.reserved ++ u.returned) ↔
      (p < 16 ∧ (bufAt u.s.packet_buffers p).free = 0)) :
    l.length + (u.reserved.length + u.returned.length) ≤ 16 := by
  have := nodup_length_le_16 _ hn (fun p hp => ((hm p).mp hp).1)
  simpa using this

/-- The two outcomes of `packet_queue_get_empty` in terms of the fields read
afterwards. -/
theorem packet_queue_get_empty_fields (s : State) (hlen : s.packet_buffers.length = 16) :
    (∃ j s1, packet_queue_get_empty s = (some j, s1) ∧ j < 16 ∧
        (bufAt s.packet_buffers j).free ≠ 0 ∧
        s1.packet_queue = s.packet_queue ∧ s1.packet_count = s.packet_count ∧
        s1.packet_buffers.length = 16 ∧
        (bufAt s1.packet_buffers j).free = 0 ∧
        (∀ i, i ≠ j → bufAt s1.packet_buffers i = bufAt s.packet_buffers i)) ∨
    packet_queue_get_empty s = (none, s) := by
  rcases packet_queue_get_empty_cases s with ⟨j, hj, hfree, _, hge⟩ | ⟨_, hge⟩
  · refine Or.inl ⟨j, _, hge, hj, hfree, rfl, rfl, ?_, ?_, ?_⟩
    · simp only [List.length_set]; exact hlen
    · simp only
      rw [bufAt_set_eq _ _ _ (by rw [hlen]; exact hj)]
    · intro i hi
      exact bufAt_set_ne _ _ _ _ (Ne.symm hi)
  · exact Or.inr hge

/-- Under the invariant `packet_queue_get_empty` keeps the invariant: a buffer it
returns was free and joins the reserved buffers. -/
theorem usageStep_get_empty_inv (u : Usage) (h : UsageInv u) :
    ∃ u1, usageStep UsageOp.get_empty u = some u1 ∧ UsageInv u1 := by
  obtain ⟨l, hq, hc, hn, hm⟩ := h.queue
  rcases packet_queue_get_empty_fields u.s h.bufs_len with
    ⟨j, s1, hge, hj, hfree, hq1, hc1, hlen1, hfree1, hold1⟩ | hge
  · have hjL : j ∉ l ++ (u.reserved ++ u.returned) := fun hin => hfree ((hm j).mp hin).2
    refine ⟨{ u with s := s1, reserved := j :: u.reserved }, by simp only [usageStep, hge], ?_⟩
    constructor
    · exact hlen1
    · refine ⟨l, by rw [hq1]; exact hq, by rw [hc1]; exact hc, ?_, ?_⟩
      · exact (List.perm_middle.nodup_iff).mpr (List.nodup_cons.mpr ⟨hjL, hn⟩)
      · intro p
        have hp : p ∈ l ++ (j :: u.reserved ++ u.returned) ↔
            p = j ∨ p ∈ l ++ (u.reserved ++ u.returned) := by
          rw [show l ++ (j :: u.reserved ++ u.returned)
              = l ++ j :: (u.reserved ++ u.returned) from rfl,
            List.perm_middle.mem_iff, List.mem_cons]
        simp only
        rw [hp]
        by_cases hpj : p = j
        · subst hpj
          rw [hfree1]
          exact ⟨fun _ => ⟨hj, rfl⟩, fun _ => Or.inl rfl⟩
        · rw [hold1 p hpj]
          constructor
          · intro hor
            rcases hor with h1 | h1
            · exact absurd h1 hpj
            · exact (hm p).mp h1
          · intro hr
            exact Or.inr ((hm p).mpr hr)
  · exact ⟨{ u with s := u.s }, by simp only [usageStep, hge], h⟩

/-- Under the invariant `packet_queue_insert` of a reserved buffer finds fewer than
16 packets queued, stores at an index `≤ 15`, keeps every queued entry in its order
and keeps the invariant. -/
theorem usageStep_insert_inv (u : Usage) (pkt key : Nat) (h : UsageInv u) :
    ∃ u1, usageStep (UsageOp.insert pkt key) u = some u1 ∧ UsageInv u1 ∧
      (pkt ∈ u.reserved → ∃ l1 l2, u.s.packet_queue = queueOf (l1 ++ l2) ∧
        u1.s.packet_queue = queueOf (l1 ++ pkt :: l2) ∧ l1.length + l2.length ≤ 15) := by
  obtain ⟨l, hq, hc, hn, hm⟩ := h.queue
  by_cases hin : pkt ∈ u.reserved
  · have hbound := usageInv_bound u l hn hm
    have hres : 0 < u.reserved.length := List.length_pos_of_mem hin
    have hpkt16 : pkt < 16 :=
      ((hm pkt).mp (List.mem_append_right _ (List.mem_append_left _ hin))).1
    obtain ⟨s1, hins, hq1, hc1, hlen1, _, hfree1, hold1⟩ :=
      packet_queue_insert_fields u.s l pkt key hq (by omega)
        (by rw [h.bufs_len]; exact hpkt16)
    have hsplit := List.takeWhile_append_dropWhile
      (fun b => decide ((bufAt u.s.packet_buffers b).key < key)) l
    have hflag : ∀ p, (bufAt s1.packet_buffers p).free = (bufAt u.s.packet_buffers p).free := by
      intro p
      by_cases hp : p = pkt
      · rw [hp]; exact hfree1
      · rw [hold1 p hp]
    have hperm : (l.takeWhile (fun b => decide ((bufAt u.s.packet_buffers b).key < key)) ++
          pkt :: l.dropWhile (fun b => decide ((bufAt u.s.packet_buffers b).key < key))) ++
          (u.reserved.erase pkt ++ u.returned)
        |>.Perm (l ++ (u.reserved ++ u.returned)) := by
      have e1 : (l.takeWhile (fun b => decide ((bufAt u.s.packet_buffers b).key < key)) ++
          pkt :: l.dropWhile (fun b => decide ((bufAt u.s.packet_buffers b).key < key))).Perm
          (pkt :: l) := by
        have := @List.perm_middle _ pkt
          (l.takeWhile (fun b => decide ((bufAt u.s.packet_buffers b).key < key)))
          (l.dropWhile (fun b => decide ((bufAt u.s.packet_buffers b).key < key)))
        rw [hsplit] at this
        exact this
      have e2 : (pkt :: l ++ (u.reserved.erase pkt ++ u.returned)).Perm
          (l ++ (pkt :: u.reserved.erase pkt ++ u.returned)) := List.perm_middle.symm
      have e3 : (l ++ (pkt :: u.reserved.erase pkt ++ u.returned)).Perm
          (l ++ (u.reserved ++ u.returned)) :=
        List.Perm.append_left l (List.Perm.append_right _ (List.perm_cons_erase hin).symm)
      exact ((List.Perm.append_right _ e1).trans e2).trans e3
    refine ⟨{ u with s := s1, reserved := u.reserved.erase pkt },
      by simp only [usageStep, hin, if_true, hins], ?_, ?_⟩
    · constructor
      · rw [hlen1]; exact h.bufs_len
      · refine ⟨_, hq1, ?_, (hperm.nodup_iff).mpr hn, ?_⟩
        · rw [hc1, hc]
          have := congrArg List.length hsplit
          simp only [List.length_append, List.length_cons] at this ⊢
          omega
        · intro p
          rw [hperm.mem_iff, hm p]
          simp only
          rw [hflag p]
    · intro _
      refine ⟨_, _, ?_, hq1, ?_⟩
      · rw [hsplit]; exact hq
      · have := congrArg List.length hsplit
        simp only [List.length_append] at this
        omega
  · exact ⟨u, by simp only [usageStep, hin, if_false], h, fun hc => absurd hc hin⟩

/-- Under the invariant, with fewer than 16 packets queued, `packet_queue_get_next`
keeps the invariant: the head joins the returned buffers. -/
theorem usageStep_get_next_inv (u : Usage) (h : UsageInv u) (hfull : u.s.packet_count < 16) :
    ∃ u1, usageStep UsageOp.get_next u = some u1 ∧ UsageInv u1 := by
  obtain ⟨l, hq, hc, hn, hm⟩ := h.queue
  by_cases hpos : u.s.packet_count > 0
  · cases l with
    | nil => rw [hc] at hpos; simp at hpos
    | cons a t =>
      have hl : (a :: t).length ≤ 15 := by rw [← hc]; omega
      obtain ⟨s1, hnext, hq1, hc1, hb1⟩ : ∃ s1, packet_queue_get_next u.s = (some a, s1) ∧
          s1.packet_queue = queueOf t ∧ s1.packet_count = t.length ∧
          s1.packet_buffers = u.s.packet_buffers := by
        refine ⟨_, packet_queue_get_next_below_full u.s a t hq hl, rfl, ?_, rfl⟩
        simp only
        rw [hc]
        simp only [List.length_cons] at hl ⊢
        omega
      have hperm : (t ++ (u.reserved ++ a :: u.returned)).Perm
          (a :: t ++ (u.reserved ++ u.returned)) :=
        (List.Perm.append_left t List.perm_middle).trans List.perm_middle
      refine ⟨{ u with s := s1, returned := a :: u.returned },
        by simp only [usageStep, hpos, if_true, hnext], ?_⟩
      constructor
      · rw [hb1]; exact h.bufs_len
      · refine ⟨t, hq1, hc1, (hperm.nodup_iff).mpr hn, ?_⟩
        intro p
        rw [hperm.mem_iff, hm p]
        simp only
        rw [hb1]
  · exact ⟨u, by simp only [usageStep, hpos, if_false], h⟩

/-- Under the invariant `packet_buffer_free` of a returned buffer keeps the
invariant. -/
theorem usageStep_free_inv (u : Usage) (pkt : Nat) (h : UsageInv u) :
    ∃ u1, usageStep (UsageOp.free pkt) u = some u1 ∧ UsageInv u1 := by
  obtain ⟨l, hq, hc, hn, hm⟩ := h.queue
  by_cases hin : pkt ∈ u.returned
  · have hpkt16 : pkt < 16 :=
      ((hm pkt).mp (List.mem_append_right _ (List.mem_append_right _ hin))).1
    have hperm : (l ++ (u.reserved ++ u.returned)).Perm
        (pkt :: (l ++ (u.reserved ++ u.returned.erase pkt))) :=
      (List.Perm.append_left l
        ((List.Perm.append_left u.reserved (List.perm_cons_erase hin)).trans
          List.perm_middle)).trans List.perm_middle
    have hn1 := List.nodup_cons.mp ((hperm.nodup_iff).mp hn)
    refine ⟨{ u with s := packet_buffer_free pkt u.s, returned := u.returned.erase pkt },
      by simp only [usageStep, hin, if_true], ?_⟩
    constructor
    · simp only [packet_buffer_free, List.length_set]; exact h.bufs_len
    · refine ⟨l, hq, hc, hn1.2, ?_⟩
      intro p
      simp only [packet_buffer_free]
      by_cases hp : p = pkt
      · subst hp
        rw [bufAt_set_eq _ _ _ (by rw [h.bufs_len]; exact hpkt16)]
        constructor
        · intro hmem; exact absurd hmem hn1.1
        · intro hr; exact absurd hr.2 (show (1 : Nat) ≠ 0 by decide)
      · rw [bufAt_set_ne _ _ _ _ (Ne.symm hp), ← hm p, hperm.mem_iff, List.mem_cons]
        constructor
        · intro hmem; exact Or.inr hmem
        · intro hor
          rcases hor with h1 | h1
          · exact absurd h1 hp
          · exact h1
  · exact ⟨u, by simp only [usageStep, hin, if_false], h⟩

/-- Every call of the usage keeps the invariant, unless it is a
`packet_queue_get_next` with 16 packets queued. -/
theorem usageStep_inv (op : UsageOp) (u : Usage) (h : UsageInv u)
    (hfull : op = UsageOp.get_next → u.s.packet_count < 16) :
    ∃ u1, usageStep op u = some u1 ∧ UsageInv u1 := by
  cases op with
  | get_empty => exact usageStep_get_empty_inv u h
  | insert pkt key =>
    obtain ⟨u1, h1, h2, _⟩ := usageStep_insert_inv u pkt key h
    exact ⟨u1, h1, h2⟩
  | get_next => exact usageStep_get_next_inv u h (hfull rfl)
  | free pkt => exact usageStep_free_inv u pkt h

/-- A sequence of calls that never pops from a full queue never stores outside
`packet_queue` and keeps the invariant. -/
theorem usageRun_inv : ∀ (ops : List UsageOp) (u : Usage), UsageInv u →
    neverPopsFull ops u = true →
    ∃ u1, usageRun ops u = some u1 ∧ UsageInv u1 := by
  intro ops
  induction ops with
  | nil => intro u h _; exact ⟨u, rfl, h⟩
  | cons op ops ih =>
    intro u h hnp
    simp only [neverPopsFull, Bool.and_eq_true, decide_eq_true_eq] at hnp
    obtain ⟨u1, hstep, h1⟩ := usageStep_inv op u h hnp.1
    have hrest := hnp.2
    rw [hstep] at hrest
    obtain ⟨u2, hrun, h2⟩ := ih u1 h1 hrest
    exact ⟨u2, by simp only [usageRun, hstep, hrun], h2⟩

/-- An instance of `usageRun_inv`: fifteen packets are admitted and the first is
forwarded, then another packet is admitted. -/
theorem usageRun_inv_instance :
    ∃ u1, usageRun (sixteenAdmissions.take 30 ++
        [UsageOp.get_next, UsageOp.free 0, UsageOp.get_empty, UsageOp.insert 0 16])
        (initUsage (fun _ => default)) = some u1 ∧ UsageInv u1 :=
  usageRun_inv _ _ (usageInv_init _) (by decide)

theorem bufs_eq_map_range (bufs : List sniffed_packet) (hlen : bufs.length = 16) :
    bufs = (List.range 16).map (bufAt bufs) := by
  apply List.ext_getElem
  · simp [hlen]
  · intro i h1 h2
    simp [bufAt, List.getD_eq_getElem?_getD, List.getElem?_eq_getElem h1]

/-- Under the invariant the empty queue positions are the free buffers plus the
buffers in the hands of the threads, so at least the free buffers. -/
theorem usageInv_counts (u : Usage) (h : UsageInv u) :
    emptyPositions u.s = freeSlots u.s + (u.reserved.length + u.returned.length) ∧
    freeSlots u.s ≤ emptyPositions u.s := by
  obtain ⟨l, hq, hc, hn, hm⟩ := h.queue
  have hbound := usageInv_bound u l hn hm
  have hempty : emptyPositions u.s = 16 - l.length := by
    unfold emptyPositions
    rw [hq]
    simp only [queueOf, SNIFFED_PACKETED_BUFFER_SIZE, List.count_append,
      List.count_replicate_self]
    rw [List.count_eq_zero_of_not_mem (by simp)]
    omega
  have hocc : ((List.range 16).filter
      (fun i => (bufAt u.s.packet_buffers i).free == 0)).length
        = l.length + (u.reserved.length + u.returned.length) := by
    have hperm : ((List.range 16).filter
        (fun i => (bufAt u.s.packet_buffers i).free == 0)).Perm
        (l ++ (u.reserved ++ u.returned)) := by
      apply (List.perm_ext_iff_of_nodup ((List.nodup_range 16).filter _) hn).mpr
      intro p
      rw [hm p]
      simp
    simpa using hperm.length_eq
  have hcount : freeSlots u.s
      = List.countP ((fun p => p.free != 0) ∘ bufAt u.s.packet_buffers) (List.range 16) := by
    have := congrArg (List.countP (fun p : sniffed_packet => p.free != 0))
      (bufs_eq_map_range u.s.packet_buffers h.bufs_len)
    rw [List.countP_map] at this
    exact this
  have hsum := List.length_eq_countP_add_countP
    (fun i => (bufAt u.s.packet_buffers i).free == 0) (List.range 16)
  rw [List.length_range, List.countP_eq_length_filter, hocc] at hsum
  have e : List.countP (fun a => decide ¬((bufAt u.s.packet_buffers a).free == 0) = true)
      (List.range 16)
      = List.countP ((fun p => p.free != 0) ∘ bufAt u.s.packet_buffers) (List.range 16) := by
    apply List.countP_congr
    intro i _
    simp [bne]
  rw [e, ← hcount] at hsum
  omega

end Snif
